import Mathlib

/-!
Verification of the gdenv version manager core against its specification.

The definitions below are a shallow embedding of the Rust sources:
  - src/gdenv-lib/src/godot_version.rs  (version model: parsing, display, ordering)
  - src/gdenv/src/godot.rs              (platform patterns, naming)
  - src/gdenv-lib/src/github.rs         (release registry, asset selection, caching)
  - src/gdenv-lib/src/installer.rs      (symlink activation, active version)
  - src/gdenv-lib/src/file_sync.rs      (directory synchronizer)

Machine integers (u32/u64) are modelled as Nat with explicit bounds checks
where the Rust code can fail on overflow (string-to-u32 parsing).  Filesystem
state is modelled explicitly as data passed to the functions.
-/

set_option maxHeartbeats 1600000

/-! ## Character utilities

The regex in godot_version.rs matches digits with a backslash-d and tag
letters with the class a-zA-Z.  The letter class is ASCII by definition.
The digit class in Rust's regex crate is the full Unicode Nd category; the
model below restricts it to ASCII, so theorems about the parser carry an
explicit ASCII hypothesis on the input — inside ASCII the two classes
coincide (and str::parse::<u32> accepts exactly ASCII digits), outside it
the model is not claimed faithful.
-/

/-- ASCII decimal digit test: the restriction of the regex digit class to
ASCII input.  Rust's backslash-d also matches non-ASCII Unicode decimal
digits, which this predicate deliberately does not model; every theorem
that relates the parser model to the source therefore assumes an ASCII
haystack. -/
def isDigitCh (c : Char) : Bool := 48 ≤ c.toNat && c.toNat ≤ 57

/-- ASCII letter test, the regex class a-zA-Z used for the release tag. -/
def isAlphaCh (c : Char) : Bool :=
  (65 ≤ c.toNat && c.toNat ≤ 90) || (97 ≤ c.toNat && c.toNat ≤ 122)

/-- Numeric value of a run of ASCII digits, most significant first.
Models how Rust's str::parse reads a digit string (before the u32 range
check, which is separate in parseU32). -/
def digitsVal (ds : List Char) : Nat :=
  ds.foldl (fun a c => a * 10 + (c.toNat - 48)) 0

/-- The largest u32 value; Rust's str::parse::<u32> fails above it. -/
def u32Max : Nat := 4294967295

/-- Models str::parse::<u32> on a nonempty digit run: fails exactly when the
value exceeds u32::MAX. -/
def parseU32 (ds : List Char) : Option Nat :=
  if digitsVal ds ≤ u32Max then some (digitsVal ds) else none

/-- Lift parseU32 over an optional capture group, mirroring
caps.get(i).map(parse).transpose() in GodotVersion::new. -/
def parseOptU32 : Option (List Char) → Option (Option Nat)
  | none => some none
  | some ds => (parseU32 ds).map some

/-- The ASCII digit character for a value below ten. -/
def digitCh (n : Nat) : Char :=
  match n with
  | 0 => '0' | 1 => '1' | 2 => '2' | 3 => '3' | 4 => '4'
  | 5 => '5' | 6 => '6' | 7 => '7' | 8 => '8' | _ => '9'

/-- Decimal rendering of a Nat, as Rust's Display for u32 renders it.
Fuel-based so that it reduces in the kernel; the fuel n+1 always suffices. -/
def natToDigitsGo : Nat → Nat → List Char → List Char
  | 0, _, acc => acc
  | fuel + 1, n, acc =>
    if n < 10 then digitCh n :: acc
    else natToDigitsGo fuel (n / 10) (digitCh (n % 10) :: acc)

/-- Decimal digit list of a natural number ("0" for 0). -/
def natToDigits (n : Nat) : List Char := natToDigitsGo (n + 1) n []

/-! ## The version model (src/gdenv-lib/src/godot_version.rs) -/

/-- GodotVersion from godot_version.rs.  u32 fields become Nat (their values
are kept below 2^32 by parsing). -/
structure GodotVersion where
  major : Nat
  minor : Option Nat
  patch : Option Nat
  sub_patch : Option Nat
  release_tag : Option String
  tag_version : Option Nat
  extra : Option String
  is_dotnet : Bool
deriving DecidableEq, Repr

/-- The seven capture groups of VERSION_REGEX, over a fully matched input.
Group 1 (major digits) is mandatory; group 7 (extra) always matches the
remaining text. -/
structure RegexCaptures where
  g1 : List Char
  g2 : Option (List Char)
  g3 : Option (List Char)
  g4 : Option (List Char)
  g5 : Option (List Char)
  g6 : Option (List Char)
  g7 : List Char
deriving DecidableEq, Repr

/-- Greedy split into a maximal digit run and the remainder. -/
def spanDigits (cs : List Char) : List Char × List Char :=
  (cs.takeWhile isDigitCh, cs.dropWhile isDigitCh)

/-- Greedy split into a maximal letter run and the remainder. -/
def spanAlpha (cs : List Char) : List Char × List Char :=
  (cs.takeWhile isAlphaCh, cs.dropWhile isAlphaCh)

/-- One optional group (?:\.(\d+))? — matches a dot followed by at least one
digit (taking the maximal digit run), otherwise consumes nothing. -/
def matchDotNum (cs : List Char) : Option (List Char) × List Char :=
  match cs with
  | [] => (none, [])
  | c :: rest =>
    if c = '.' then
      let s := spanDigits rest
      if s.1.isEmpty then (none, c :: rest) else (some s.1, s.2)
    else (none, c :: rest)

/-- The optional tag group (?:-([a-zA-Z]+)(\d+)?)? — a dash, then a maximal
nonempty letter run, then an optional maximal digit run. -/
def matchTag (cs : List Char) : Option (List Char) × Option (List Char) × List Char :=
  match cs with
  | [] => (none, none, [])
  | c :: rest =>
    if c = '-' then
      let s := spanAlpha rest
      if s.1.isEmpty then (none, none, c :: rest)
      else
        let d := spanDigits s.2
        (some s.1, if d.1.isEmpty then none else some d.1, d.2)
    else (none, none, c :: rest)

/-- Matching the body of VERSION_REGEX after the optional leading v,
ignoring the newline restriction on the trailing group (handled by the
matchBody wrapper below).  All groups after the major digits are optional
and the final lazy group absorbs the rest of the input, so the regex engine
never backtracks past the major digits: each optional group simply matches
greedily where possible. -/
def matchBodyAux (cs : List Char) : Option RegexCaptures :=
  let s1 := spanDigits cs
  if s1.1.isEmpty then none
  else
    let m2 := matchDotNum s1.2
    let m3 := matchDotNum m2.2
    let m4 := matchDotNum m3.2
    let mt := matchTag m4.2
    some ⟨s1.1, m2.1, m3.1, m4.1, mt.1, mt.2.1, mt.2.2⟩

/-- Matching the body of VERSION_REGEX after the optional leading v.  The
trailing lazy group is a dot-star, and in the regex crate the dot never
matches a newline while the anchor at the end matches only at the end of
the haystack; since no earlier part of the pattern can consume a newline
either (digits, dots, dashes and letters only), a newline left over for
the trailing group makes the whole match fail. -/
def matchBody (cs : List Char) : Option RegexCaptures :=
  match matchBodyAux cs with
  | none => none
  | some m => if m.g7.any (fun c => c = '\n') then none else some m

/-- VERSION_REGEX from godot_version.rs:
optional leading v, major digits, three optional dot-number groups, an
optional tag group, and the trailing text.  A leading v must be followed by
a digit (otherwise neither the branch consuming v nor the one keeping it can
match the mandatory major digits). -/
def matchVersion (cs : List Char) : Option RegexCaptures :=
  match cs with
  | c :: rest => if c = 'v' then matchBody rest else matchBody (c :: rest)
  | [] => matchBody []

/-- The input neither begins with a digit nor with a leading v followed by
a digit: apart from a newline in the haystack, the only way VERSION_REGEX
can fail to match.  Used to state the parse-failure characterization;
reducible so that concrete inputs stay decidable. -/
@[reducible] def noLeadingDigit : List Char → Prop
  | [] => True
  | c :: rest =>
    if c = 'v' then ∀ c2, rest.head? = some c2 → isDigitCh c2 = false
    else isDigitCh c = false

/-- GodotVersion::new from godot_version.rs: run the regex, read the numeric
captures as u32, default the release tag to "stable", keep nonempty trailing
text as extra, and strip trailing zero components. -/
def godotVersionNewChars (cs : List Char) (is_dotnet : Bool) : Option GodotVersion :=
  match matchVersion cs with
  | none => none
  | some m =>
    match parseU32 m.g1 with
    | none => none
    | some major =>
      match parseOptU32 m.g2 with
      | none => none
      | some minor_opt =>
        match parseOptU32 m.g3 with
        | none => none
        | some patch_opt =>
          match parseOptU32 m.g4 with
          | none => none
          | some sub_patch_opt =>
            match parseOptU32 m.g6 with
            | none => none
            | some tag_version =>
              let release_tag : Option String := some (match m.g5 with
                | none => "stable"
                | some ls => ⟨ls⟩)
              let extra : Option String := if m.g7.isEmpty then none else some ⟨m.g7⟩
              let sub_patch := sub_patch_opt.filter (fun v => 0 < v)
              let patch := patch_opt.filter (fun v => sub_patch.isSome || 0 < v)
              let minor := minor_opt.filter (fun v => patch.isSome || 0 < v)
              some ⟨major, minor, patch, sub_patch, release_tag, tag_version,
                extra, is_dotnet⟩

/-- GodotVersion::new on a Rust string. -/
def godotVersionNew (s : String) (is_dotnet : Bool) : Option GodotVersion :=
  godotVersionNewChars s.data is_dotnet

/-- GodotVersion::as_str_no_release_tag: major.minor (minor displayed as 0
when absent), then .patch and .sub_patch only when present. -/
def versionCharsNoTag (v : GodotVersion) : List Char :=
  natToDigits v.major ++ '.' :: natToDigits (v.minor.getD 0) ++
    (match v.patch with
     | none => []
     | some p =>
       '.' :: natToDigits p ++
         (match v.sub_patch with
          | none => []
          | some sp => '.' :: natToDigits sp))

/-- GodotVersion::as_godot_version_str: the numeric part, -tag when the tag
is present, the tag version digits, then the extra text verbatim. -/
def versionChars (v : GodotVersion) : List Char :=
  versionCharsNoTag v ++
    (match v.release_tag with
     | none => []
     | some t => '-' :: t.data) ++
    (match v.tag_version with
     | none => []
     | some n => natToDigits n) ++
    (match v.extra with
     | none => []
     | some e => e.data)

/-- String form of as_godot_version_str. -/
def asGodotVersionStr (v : GodotVersion) : String := ⟨versionChars v⟩

/-! ## Ordering of versions (impl Ord for GodotVersion) -/

/-- Char-wise lowercasing of a string, modelling str::to_lowercase in
get_tag_rank.  Rust lowercases the full Unicode range; Char.toLower agrees
with it on ASCII, and the five ranked tag names are ASCII. -/
def rustToLowercase (s : String) : String := ⟨s.data.map Char.toLower⟩

/-- get_tag_rank from impl Ord for GodotVersion: stable=100, rc=80, beta=60,
alpha=40, dev=20, anything else (and only reachable via a defaulted None
tag: "stable") = 0. -/
def get_tag_rank (tag : Option String) : Nat :=
  let t := rustToLowercase (tag.getD "stable")
  if t = "stable" then 100
  else if t = "rc" then 80
  else if t = "beta" then 60
  else if t = "alpha" then 40
  else if t = "dev" then 20
  else 0

/-- Lexicographic comparison of char lists by code point.  This models
Rust's Ord for String, which compares UTF-8 bytes lexicographically; UTF-8
byte order coincides with code-point order. -/
def charListCmp : List Char → List Char → Ordering
  | [], [] => .eq
  | [], _ :: _ => .lt
  | _ :: _, [] => .gt
  | a :: as, b :: bs => (compare a.toNat b.toNat).then (charListCmp as bs)

/-- Rust's Ord for String. -/
def strCmp (a b : String) : Ordering := charListCmp a.data b.data

/-- Rust's Ord for Option: None sorts before Some, Some compares inner
values. -/
def cmpOpt (c : α → α → Ordering) (x y : Option α) : Ordering :=
  match x, y with
  | some a, some b => c a b
  | some _, none => .gt
  | none, some _ => .lt
  | none, none => .eq

/-- impl Ord for GodotVersion (cmp): the then-chain over major, minor, patch
and sub_patch (missing numeric components read as 0), the tag rank, the tag
itself, the tag version, and extra.  Note that is_dotnet is not part of this
chain, exactly as in the source. -/
def godotCmp (a b : GodotVersion) : Ordering :=
  (((((((compare a.major b.major).then
    (compare (a.minor.getD 0) (b.minor.getD 0))).then
    (compare (a.patch.getD 0) (b.patch.getD 0))).then
    (compare (a.sub_patch.getD 0) (b.sub_patch.getD 0))).then
    (compare (get_tag_rank a.release_tag) (get_tag_rank b.release_tag))).then
    (cmpOpt strCmp a.release_tag b.release_tag)).then
    (compare (a.tag_version.getD 0) (b.tag_version.getD 0))).then
    (cmpOpt strCmp a.extra b.extra)

/-- All numeric capture groups of a match fit in u32, i.e. none of the
str::parse::<u32> calls in GodotVersion::new fails. -/
def capturesFit (m : RegexCaptures) : Bool :=
  (parseU32 m.g1).isSome && (parseOptU32 m.g2).isSome && (parseOptU32 m.g3).isSome &&
    (parseOptU32 m.g4).isSome && (parseOptU32 m.g6).isSome

/-! ## Canonical shape of parsed versions

Every successful GodotVersion::new result satisfies these invariants; they
are exactly what the round-trip argument needs. -/

/-- Invariants of a version produced by parsing: numeric fields fit in u32,
trailing zeros are stripped (a stored zero component is justified by a more
specific stored component), component presence is monotone, and the release
tag is a nonempty run of ASCII letters (or the "stable" default). -/
structure CanonicalVersion (v : GodotVersion) : Prop where
  major_le : v.major ≤ u32Max
  minor_le : ∀ m, v.minor = some m → m ≤ u32Max
  patch_le : ∀ p, v.patch = some p → p ≤ u32Max
  sub_le : ∀ sp, v.sub_patch = some sp → sp ≤ u32Max
  tagv_le : ∀ n, v.tag_version = some n → n ≤ u32Max
  minor_canon : ∀ m, v.minor = some m → (v.patch.isSome || decide (0 < m)) = true
  patch_canon : ∀ p, v.patch = some p → (v.sub_patch.isSome || decide (0 < p)) = true
  sub_pos : ∀ sp, v.sub_patch = some sp → 0 < sp
  patch_needs_minor : v.patch.isSome = true → v.minor.isSome = true
  sub_needs_patch : v.sub_patch.isSome = true → v.patch.isSome = true
  tag_alpha : ∃ t : String, v.release_tag = some t ∧ t.data ≠ [] ∧
    ∀ c ∈ t.data, isAlphaCh c = true

/-! ## String helpers shared by the registry and installer models -/

/-- Rust str::contains with a literal pattern: some contiguous run of hay
equals pat. -/
def hasInfixCL (hay pat : List Char) : Bool :=
  if pat.isPrefixOf hay then true
  else
    match hay with
    | [] => false
    | _ :: t => hasInfixCL t pat

/-- str::contains on strings. -/
def containsStr (hay pat : String) : Bool := hasInfixCL hay.data pat.data

/-- str::ends_with on strings. -/
def endsWithStr (hay pat : String) : Bool := pat.data.isSuffixOf hay.data

/-- str::starts_with on strings. -/
def startsWithStr (hay pat : String) : Bool := pat.data.isPrefixOf hay.data

/-- str::strip_prefix for a literal pattern. -/
def dropPrefixOpt (s pat : String) : Option String :=
  if pat.data.isPrefixOf s.data then some ⟨s.data.drop pat.data.length⟩ else none

/-- Insert into a sorted list, before the first element the new element
compares le to.  Elements of the tail originally came after the inserted
one, so this placement is the stable one. -/
def insertLe (le : α → α → Bool) (a : α) : List α → List α
  | [] => [a]
  | b :: bs => if le a b then a :: b :: bs else b :: insertLe le a bs

/-- Stable sort by a boolean le relation, modelling Rust's stable
Vec::sort / Vec::sort_by. -/
def stableSortBy (le : α → α → Bool) : List α → List α
  | [] => []
  | a :: as => insertLe le a (stableSortBy le as)

/-! ## The platform matcher (src/gdenv/src/godot.rs) -/

/-- get_platform_patterns: the ordered pattern table, one arm per (os, arch)
pair with fallbacks, exactly in the source's match order. -/
def get_platform_patterns (os arch : String) : List String :=
  if os = "windows" && arch = "x86_64" then ["win64"]
  else if os = "windows" && arch = "x86" then ["win32", "win64"]
  else if os = "macos" then ["macos"]
  else if os = "linux" && arch = "x86_64" then ["linux.x86_64", "linux_x86_64", "linux"]
  else if os = "linux" && arch = "x86" then
    ["linux.x86_32", "linux_x86_32", "linux.x86_64", "linux_x86_64", "linux"]
  else if os = "linux" && arch = "arm" then
    ["linux.arm32", "linux_arm32", "linux.arm64", "linux_arm64", "linux"]
  else if os = "linux" && arch = "aarch64" then
    ["linux.arm64", "linux_arm64", "linux.x86_64", "linux_x86_64", "linux"]
  else if os = "windows" then ["win64", "win32"]
  else if os = "linux" then ["linux.x86_64", "linux"]
  else ["linux.x86_64", "linux"]

/-- platform_suffix from the same file. -/
def platform_suffix (os arch : String) : String :=
  if os = "windows" && arch = "x86_64" then "win64.exe"
  else if os = "windows" && arch = "x86" then "win32.exe"
  else if os = "macos" then "macos.universal"
  else if os = "linux" && arch = "x86_64" then "linux.x86_64"
  else if os = "linux" && arch = "x86" then "linux.x86_32"
  else if os = "linux" && arch = "arm" then "linux.arm32"
  else if os = "linux" && arch = "aarch64" then "linux.arm64"
  else if os = "windows" then "win64.exe"
  else if os = "linux" then "linux.x86_64"
  else "linux.x86_64"

/-- godot_executable_path: the expected executable location inside an
install directory, per target OS. -/
def godot_executable_path (v : GodotVersion) (os arch : String) : String :=
  if os = "macos" then
    if v.is_dotnet then "Godot_mono.app/Contents/MacOS/Godot"
    else "Godot.app/Contents/MacOS/Godot"
  else if os = "windows" then
    let version_part := asGodotVersionStr v
    if v.is_dotnet then
      "Godot_v" ++ version_part ++ "_mono_win64/Godot_v" ++ version_part ++ "_mono_win64.exe"
    else "Godot_v" ++ version_part ++ "_win64.exe"
  else if os = "linux" then
    let version_part := asGodotVersionStr v
    let ps := platform_suffix os arch
    if v.is_dotnet then
      ("Godot_v" ++ version_part ++ "_mono_" ++ ps) ++ "/" ++
        ("Godot_v" ++ version_part ++ "_mono_" ++ ps)
    else "Godot_v" ++ version_part ++ "_" ++ ps
  else "Godot"

/-- godot_installation_name: the deterministic install directory name. -/
def godot_installation_name (v : GodotVersion) : String :=
  if v.is_dotnet then "godot-" ++ asGodotVersionStr v ++ "-dotnet"
  else "godot-" ++ asGodotVersionStr v

/-! ## The release registry (src/gdenv-lib/src/github.rs) -/

/-- GitHubAsset: one downloadable artifact of a release. -/
structure GitHubAsset where
  name : String
  browser_download_url : String
  size : Nat
deriving DecidableEq, Repr

/-- GitHubRelease: a parsed version plus its assets. -/
structure GitHubRelease where
  version : GodotVersion
  assets : List GitHubAsset
deriving DecidableEq, Repr

/-- The per-asset predicate inside find_godot_asset: the lower-cased name
contains the platform pattern, contains "godot", ends with ".zip", and
contains "mono" exactly when the .NET variant is requested. -/
def asset_filter (pattern : String) (is_dotnet : Bool) (asset : GitHubAsset) : Bool :=
  let name := rustToLowercase asset.name
  let has_platform := containsStr name pattern
  let has_godot := containsStr name "godot"
  let has_mono := containsStr name "mono"
  let is_zip := endsWithStr name ".zip"
  has_platform && has_godot && is_zip && (is_dotnet == has_mono)

/-- The pattern loop of find_godot_asset: first pattern that has any
matching asset wins, and within it the first matching asset in list order. -/
def findAssetInPatterns (patterns : List String) (assets : List GitHubAsset)
    (is_dotnet : Bool) : Option GitHubAsset :=
  match patterns with
  | [] => none
  | p :: ps =>
    match assets.find? (asset_filter p is_dotnet) with
    | some a => some a
    | none => findAssetInPatterns ps assets is_dotnet

/-- The two failure modes of find_godot_asset: the early bail on an empty
asset list, and the fall-through when no pattern matches. -/
inductive AssetError
  | noAssets
  | notFound
deriving DecidableEq, Repr

/-- GitHubRelease::find_godot_asset. -/
def find_godot_asset (assets : List GitHubAsset) (is_dotnet : Bool) (os arch : String) :
    Except AssetError GitHubAsset :=
  if assets.isEmpty then .error .noAssets
  else
    match findAssetInPatterns (get_platform_patterns os arch) assets is_dotnet with
    | some a => .ok a
    | none => .error .notFound

/-- CACHE_VALIDITY_DAYS from github.rs. -/
def CACHE_VALIDITY_DAYS : Nat := 7

/-- Rust Vec::sort on releases: impl Ord for GitHubRelease compares the
versions with GodotVersion cmp. -/
def sortReleases (rs : List GitHubRelease) : List GitHubRelease :=
  stableSortBy (fun a b => godotCmp a.version b.version ≠ .gt) rs

/-- The environment godot_releases runs against: the cache file state, the
outcome deserializing it, the outcome of the network fetch (already parsed
and variant-duplicated by fetch_all_releases_from_api), and whether writing
the cache file succeeds.  cacheAge in seconds; none models a failure of
metadata/modified/duration_since (e.g. a modification time in the future). -/
structure RegistryEnv where
  cacheExists : Bool
  cacheAge : Option Nat
  cacheContents : Option (List GitHubRelease)
  fetchResult : Option (List GitHubRelease)
  saveOk : Bool

/-- is_cache_valid: the file exists and its age is strictly below the
validity window. -/
def is_cache_valid (env : RegistryEnv) : Bool :=
  if !env.cacheExists then false
  else
    match env.cacheAge with
    | some a => a < CACHE_VALIDITY_DAYS * 24 * 60 * 60
    | none => false

/-- The error results of godot_releases, by failing operation. -/
inductive RegistryError
  | loadCacheFailed
  | networkFailed
  | saveCacheFailed
deriving DecidableEq, Repr

/-- godot_releases from impl DownloadClient for GitHubClient: serve the
cache when allowed and valid (load_cache re-sorts), otherwise fetch, sort,
and write the cache — where a failing write is turned into an error with
bail!("Failed to save releases cache"). -/
def godot_releases (force_refresh : Bool) (env : RegistryEnv) :
    Except RegistryError (List GitHubRelease) :=
  if !force_refresh && is_cache_valid env then
    match env.cacheContents with
    | some rs => .ok (sortReleases rs)
    | none => .error .loadCacheFailed
  else
    match env.fetchResult with
    | none => .error .networkFailed
    | some rs =>
      if env.saveOk then .ok (sortReleases rs)
      else .error .saveCacheFailed

/-! ## The installer (src/gdenv-lib/src/installer.rs)

Filesystem state is modelled per path: what symlink_metadata reports at a
path is an optional FsNode.  Symlink creation itself is modelled as
succeeding. -/

/-- What can occupy a filesystem path: a regular file (with its content), a
directory, or a symlink with its target path. -/
inductive FsNode
  | file (content : String)
  | dir
  | symlink (target : String)
deriving DecidableEq, Repr

/-- file_type().is_symlink() on a node. -/
def FsNode.is_symlink : FsNode → Bool
  | .symlink _ => true
  | _ => false

/-- Result of update_symlink at the link path: the node afterwards and
whether the non-symlink warning was emitted.  The Rust function returns Ok
in both cases; the refusal is visible only as the warning plus the
untouched node. -/
structure SymlinkOutcome where
  node : Option FsNode
  warned : Bool
deriving DecidableEq, Repr

/-- update_symlink: an existing symlink is removed and recreated pointing
at original; an existing non-symlink is left untouched with a warning; an
absent path gets the new symlink. -/
def update_symlink (original : String) (linkNode : Option FsNode) : SymlinkOutcome :=
  match linkNode with
  | some n => if n.is_symlink then ⟨some (.symlink original), false⟩ else ⟨some n, true⟩
  | none => ⟨some (.symlink original), false⟩

/-- One entry of the walk of an install directory (walkdir with
max_depth 2): its path relative to the install dir, whether it is a regular
file, and whether any Unix execute bit is set. -/
structure InstalledEntry where
  relPath : String
  isFile : Bool
  execBit : Bool
deriving DecidableEq, Repr

/-- Split a character list at every slash (the slash itself dropped), as a
structural recursion so that concrete paths evaluate in the kernel. -/
def splitSlash : List Char → List (List Char)
  | [] => [[]]
  | c :: rest =>
    if c = '/' then [] :: splitSlash rest
    else
      match splitSlash rest with
      | [] => [[c]]
      | seg :: segs => (c :: seg) :: segs

/-- The final slash-separated segment of a path (Path::file_name for the
paths this tool produces). -/
def lastSegment (p : String) : String := ⟨(splitSlash p.data).getLastD p.data⟩

/-- find_godot_executable: first the exact expected path, then the
platform-specific fallback.  The source selects the fallback with
compile-time cfg(target_os); the model selects by the same os string that
config.os carries. -/
def find_godot_executable (contents : List InstalledEntry) (v : GodotVersion)
    (os arch : String) : Option String :=
  let expected := godot_executable_path v os arch
  if contents.any (fun e => e.relPath = expected && e.isFile) then some expected
  else if os = "macos" then
    if contents.any (fun e => e.relPath = "Godot.app/Contents/MacOS/Godot") then
      some "Godot.app/Contents/MacOS/Godot"
    else none
  else if os = "windows" then
    (contents.find? (fun e =>
      startsWithStr (lastSegment e.relPath) "Godot" &&
      endsWithStr (lastSegment e.relPath) ".exe")).map (fun e => e.relPath)
  else if os = "linux" then
    (contents.find? (fun e =>
      startsWithStr (lastSegment e.relPath) "Godot" && e.isFile && e.execBit)).map
      (fun e => e.relPath)
  else none

/-- The state set_active_version works on: the install directory names
under installations_dir, and the nodes at the active symlink path and the
bin/godot symlink path. -/
structure InstallerState where
  installedDirs : List String
  activeNode : Option FsNode
  binNode : Option FsNode
deriving DecidableEq, Repr

/-- The failure modes of set_active_version. -/
inductive ActivateError
  | notInstalled
  | execNotFound
deriving DecidableEq, Repr

/-- Result of set_active_version: the new state, whether the active-path
update warned about a non-symlink, and the returned error if any. -/
structure ActivateResult where
  state : InstallerState
  warnedConflict : Bool
  error : Option ActivateError
deriving DecidableEq, Repr

/-- set_active_version: bail when not installed, update the active symlink
(via update_symlink, which refuses to replace a non-symlink), then create
the bin/godot symlink to the resolved executable. -/
def set_active_version (os arch : String) (v : GodotVersion)
    (st : InstallerState) (contents : List InstalledEntry) : ActivateResult :=
  if !st.installedDirs.contains (godot_installation_name v) then
    ⟨st, false, some .notInstalled⟩
  else
    let r1 := update_symlink ("installations/" ++ godot_installation_name v) st.activeNode
    match find_godot_executable contents v os arch with
    | none => ⟨⟨st.installedDirs, r1.node, st.binNode⟩, r1.warned, some .execNotFound⟩
    | some exePath =>
      let r2 := update_symlink
        ("installations/" ++ godot_installation_name v ++ "/" ++ exePath) st.binNode
      ⟨⟨st.installedDirs, r1.node, r2.node⟩, r1.warned, none⟩

/-- The filesystem state get_active_version examines: the node at the
active symlink path, and — when that node is a symlink — whether its
resolved target exists (Path::exists traverses symlinks). -/
structure ActiveFs where
  node : Option FsNode
  targetExists : Bool
deriving DecidableEq, Repr

/-- Path::exists on the active path: follows a symlink to its target. -/
def activePathExists (fs : ActiveFs) : Bool :=
  match fs.node with
  | none => false
  | some (.symlink _) => fs.targetExists
  | some _ => true

/-- fs::read_link fails on a path that is not a symlink (and on an absent
path); the question-mark operator in get_active_version propagates that
failure. -/
inductive ReadError
  | readLinkFailed
deriving DecidableEq, Repr

/-- The name-to-version step shared by get_active_version and
list_installed: strip the "godot-" naming marker, detect and remove the
"-dotnet" suffix, and re-parse. -/
def parseInstalledDirName (dir_name : String) : Option GodotVersion :=
  match dropPrefixOpt dir_name "godot-" with
  | none => none
  | some version_part =>
    let is_dotnet := endsWithStr version_part "-dotnet"
    let version_str : String :=
      if is_dotnet then ⟨version_part.data.take (version_part.data.length - 7)⟩
      else version_part
    godotVersionNew version_str is_dotnet

/-- get_active_version: absent path (including a dangling symlink) is Ok
None; a symlink is read and its target name re-parsed, any mismatch giving
Ok None; a present non-symlink makes read_link fail and the error is
propagated. -/
def get_active_version (fs : ActiveFs) : Except ReadError (Option GodotVersion) :=
  if !activePathExists fs then .ok none
  else
    match fs.node with
    | some (.symlink target) =>
      match parseInstalledDirName (lastSegment target) with
      | some version => .ok (some version)
      | none => .ok none
    | _ => .error .readLinkFailed

/-! ## The directory synchronizer (src/gdenv-lib/src/file_sync.rs) -/

/-- FileEntry from file_sync.rs: the path relative to the tree root (as
components), the content hash (0 for directories), and the directory
marker. -/
structure FileEntry where
  rel_path : List String
  hash : Nat
  is_dir : Bool
deriving DecidableEq, Repr

/-- Path::starts_with: component-wise prefix. -/
def pathStarts (p q : List String) : Bool := q.isPrefixOf p

/-- Lexicographic comparison of component paths, modelling Ord for
PathBuf. -/
def pathListCmp : List String → List String → Ordering
  | [], [] => .eq
  | [], _ :: _ => .lt
  | _ :: _, [] => .gt
  | a :: as, b :: bs => (strCmp a b).then (pathListCmp as bs)

/-- filter_file_list: drop entries under an exclude prefix; when includes
are given keep only entries inside an include path or on the way to one. -/
def filter_file_list (list : List FileEntry)
    (includes excludes : Option (List (List String))) : List FileEntry :=
  list.filter fun entry =>
    if (match excludes with
        | some exs => exs.any (fun ex => pathStarts entry.rel_path ex)
        | none => false) then false
    else
      match includes with
      | none => true
      | some incs => incs.any (fun inc =>
          pathStarts entry.rel_path inc || pathStarts inc entry.rel_path)

/-- The operations sync_recursive performs, computed from the two tree
listings: first component the delete operations (destination entries, in
reverse path order, with no equal entry in the filtered source), second
component the copy/create operations — the source loop runs fs::copy or
create_dir_all on every filtered source entry, with no membership test.
Note the destination listing is filtered with the includes only; the
excludes are applied to the source listing alone. -/
def sync_ops (sourceList destList : List FileEntry)
    (includes excludes : Option (List (List String))) : List FileEntry × List FileEntry :=
  let filtered_source := stableSortBy
    (fun a b => pathListCmp a.rel_path b.rel_path ≠ .gt)
    (filter_file_list sourceList includes excludes)
  let filtered_dest := stableSortBy
    (fun a b => pathListCmp b.rel_path a.rel_path ≠ .gt)
    (filter_file_list destList includes none)
  let deletes := filtered_dest.filter (fun d => !(filtered_source.any (fun s => s == d)))
  (deletes, filtered_source)

/-! ## Comparator laws -/

theorem ordering_then_assoc (o₁ o₂ o₃ : Ordering) :
    (o₁.then o₂).then o₃ = o₁.then (o₂.then o₃) := by
  cases o₁ <;> rfl

instance : Batteries.TransOrd Nat where
  symm a b := Nat.compare_swap a b
  le_trans h1 h2 := by
    rw [Nat.compare_ne_gt] at h1 h2 ⊢
    omega

theorem charListCmp_swap : ∀ xs ys, (charListCmp xs ys).swap = charListCmp ys xs
  | [], [] => rfl
  | [], _ :: _ => rfl
  | _ :: _, [] => rfl
  | a :: as, b :: bs => by
    simp only [charListCmp, Ordering.swap_then, Nat.compare_swap,
      charListCmp_swap as bs]

theorem charListCmp_le_trans : ∀ {xs ys zs : List Char},
    charListCmp xs ys ≠ .gt → charListCmp ys zs ≠ .gt → charListCmp xs zs ≠ .gt
  | [], _, zs, _, _ => by intro h; cases zs <;> simp [charListCmp] at h
  | _ :: _, [], _, h1, _ => by simp [charListCmp] at h1
  | _ :: _, _ :: _, [], _, h2 => by simp [charListCmp] at h2
  | a :: as, b :: bs, c :: cs, h1, h2 => by
    intro hac
    simp only [charListCmp] at hac h1 h2
    have hab_ne : compare a.toNat b.toNat ≠ .gt := fun h => h1 (by rw [h]; rfl)
    have hbc_ne : compare b.toNat c.toNat ≠ .gt := fun h => h2 (by rw [h]; rfl)
    rw [Ne, Nat.compare_eq_gt, Nat.not_lt] at hab_ne hbc_ne
    rcases Ordering.then_eq_gt.mp hac with hg | ⟨he, hrest⟩
    · rw [Nat.compare_eq_gt] at hg; omega
    · rw [Nat.compare_eq_eq] at he
      have h1' : charListCmp as bs ≠ .gt := fun h =>
        h1 (by rw [Nat.compare_eq_eq.mpr (show a.toNat = b.toNat by omega), h]; rfl)
      have h2' : charListCmp bs cs ≠ .gt := fun h =>
        h2 (by rw [Nat.compare_eq_eq.mpr (show b.toNat = c.toNat by omega), h]; rfl)
      exact charListCmp_le_trans h1' h2' hrest

instance : Batteries.TransCmp charListCmp where
  symm := charListCmp_swap
  le_trans := charListCmp_le_trans

instance : Batteries.TransCmp strCmp where
  symm a b := charListCmp_swap a.data b.data
  le_trans := charListCmp_le_trans

instance {c : α → α → Ordering} [h : Batteries.TransCmp c] :
    Batteries.TransCmp (cmpOpt c) where
  symm x y := by
    cases x <;> cases y <;> simp [cmpOpt, Ordering.swap] <;> exact h.symm ..
  le_trans {x y z} h1 h2 := by
    cases x <;> cases y <;> cases z <;> simp_all [cmpOpt] <;> exact h.le_trans h1 h2

/-- A comparator obtained by pulling a lawful comparator back along a key
function is lawful. -/
theorem transCmp_on {c : β → β → Ordering} (h : Batteries.TransCmp c) (f : α → β) :
    Batteries.TransCmp (fun a b => c (f a) (f b)) where
  symm a b := h.symm (f a) (f b)
  le_trans h1 h2 := h.le_trans h1 h2

/-- godotCmp rewritten as a right-nested lexicographic composition, to
derive its comparator laws from those of the components. -/
theorem godotCmp_eq_lex : godotCmp = compareLex (fun a b => compare a.major b.major)
    (compareLex (fun a b => compare (a.minor.getD 0) (b.minor.getD 0))
    (compareLex (fun a b => compare (a.patch.getD 0) (b.patch.getD 0))
    (compareLex (fun a b => compare (a.sub_patch.getD 0) (b.sub_patch.getD 0))
    (compareLex (fun a b => compare (get_tag_rank a.release_tag) (get_tag_rank b.release_tag))
    (compareLex (fun a b => cmpOpt strCmp a.release_tag b.release_tag)
    (compareLex (fun a b => compare (a.tag_version.getD 0) (b.tag_version.getD 0))
    (fun a b => cmpOpt strCmp a.extra b.extra))))))) := by
  funext a b
  simp only [godotCmp, compareLex, ordering_then_assoc]

/-- Lawful comparators compose lexicographically. -/
theorem transCmp_lex {c₁ c₂ : α → α → Ordering} (h₁ : Batteries.TransCmp c₁)
    (h₂ : Batteries.TransCmp c₂) : Batteries.TransCmp (compareLex c₁ c₂) := by
  haveI := h₁
  haveI := h₂
  infer_instance

instance : Batteries.TransCmp godotCmp := by
  rw [godotCmp_eq_lex]
  have hnat : Batteries.TransCmp (compare : Nat → Nat → Ordering) := inferInstance
  have hopt : Batteries.TransCmp (cmpOpt strCmp) := inferInstance
  exact transCmp_lex (transCmp_on hnat (fun v : GodotVersion => v.major))
    (transCmp_lex (transCmp_on hnat (fun v : GodotVersion => v.minor.getD 0))
    (transCmp_lex (transCmp_on hnat (fun v : GodotVersion => v.patch.getD 0))
    (transCmp_lex (transCmp_on hnat (fun v : GodotVersion => v.sub_patch.getD 0))
    (transCmp_lex (transCmp_on hnat (fun v : GodotVersion => get_tag_rank v.release_tag))
    (transCmp_lex (transCmp_on hopt (fun v : GodotVersion => v.release_tag))
    (transCmp_lex (transCmp_on hnat (fun v : GodotVersion => v.tag_version.getD 0))
    (transCmp_on hopt (fun v : GodotVersion => v.extra))))))))

/-! ## C2: trichotomy and transitivity of the version ordering -/

/-- C2 counterexample: the claim "exactly one of a < b, a = b, a > b holds,
where equality is over all fields including isRuntimeVariant" fails on the
code.  The identifiers parsed from "4.2" with and without the variant flag
differ as values (is_dotnet differs) yet cmp ignores is_dotnet and returns
eq, so none of a < b, a = b (structural), a > b holds. -/
theorem godot_trichotomy_counterexample :
    godotVersionNew "4.2" false =
      some ⟨4, some 2, none, none, some "stable", none, none, false⟩ ∧
    godotVersionNew "4.2" true =
      some ⟨4, some 2, none, none, some "stable", none, none, true⟩ ∧
    (⟨4, some 2, none, none, some "stable", none, none, false⟩ : GodotVersion) ≠
      ⟨4, some 2, none, none, some "stable", none, none, true⟩ ∧
    godotCmp ⟨4, some 2, none, none, some "stable", none, none, false⟩
      ⟨4, some 2, none, none, some "stable", none, none, true⟩ ≠ .lt ∧
    godotCmp ⟨4, some 2, none, none, some "stable", none, none, false⟩
      ⟨4, some 2, none, none, some "stable", none, none, true⟩ ≠ .gt ∧
    godotCmp ⟨4, some 2, none, none, some "stable", none, none, false⟩
      ⟨4, some 2, none, none, some "stable", none, none, true⟩ = .eq :=
  ⟨rfl, rfl, by decide, by decide, by decide, by decide⟩

/-- C2 (amended): for all identifiers, exactly one of cmp a b = lt, eq, gt
holds, the relation is transitive in all three modes and antisymmetric, and
structural equality implies comparison equality.  The comparison, however,
ignores isRuntimeVariant, so comparison equality is coarser than equality
over all fields. -/
theorem godotCmp_total_order (a b c : GodotVersion) :
    (godotCmp a b = .lt ∨ godotCmp a b = .eq ∨ godotCmp a b = .gt) ∧
    (godotCmp a b = .lt → godotCmp a b ≠ .eq ∧ godotCmp a b ≠ .gt) ∧
    (godotCmp a b = .eq → godotCmp a b ≠ .lt ∧ godotCmp a b ≠ .gt) ∧
    (godotCmp a b = .gt → godotCmp a b ≠ .lt ∧ godotCmp a b ≠ .eq) ∧
    (godotCmp b a = (godotCmp a b).swap) ∧
    (a = b → godotCmp a b = .eq) ∧
    (godotCmp a b = .lt → godotCmp b c = .lt → godotCmp a c = .lt) ∧
    (godotCmp a b = .eq → godotCmp b c = .eq → godotCmp a c = .eq) ∧
    (godotCmp a b = .gt → godotCmp b c = .gt → godotCmp a c = .gt) := by
  refine ⟨?_, ?_, ?_, ?_, ?_, ?_, ?_, ?_, ?_⟩
  · cases godotCmp a b
    · exact Or.inl rfl
    · exact Or.inr (Or.inl rfl)
    · exact Or.inr (Or.inr rfl)
  · intro h; rw [h]; exact ⟨by decide, by decide⟩
  · intro h; rw [h]; exact ⟨by decide, by decide⟩
  · intro h; rw [h]; exact ⟨by decide, by decide⟩
  · exact (Batteries.OrientedCmp.symm a b).symm
  · rintro rfl; exact Batteries.OrientedCmp.cmp_refl
  · exact Batteries.TransCmp.lt_trans
  · intro h1 h2; rw [Batteries.TransCmp.cmp_congr_left h1, h2]
  · exact Batteries.TransCmp.gt_trans

/-- Witness for godotCmp_total_order: instantiated at the parsed forms of
4.0-alpha1 < 4.0-beta1 < 4.0-stable, discharging the transitivity
hypotheses. -/
theorem godotCmp_total_order_witness :
    godotCmp ⟨4, none, none, none, some "alpha", some 1, none, false⟩
      ⟨4, none, none, none, some "stable", none, none, false⟩ = .lt :=
  (godotCmp_total_order
      ⟨4, none, none, none, some "alpha", some 1, none, false⟩
      ⟨4, none, none, none, some "beta", some 1, none, false⟩
      ⟨4, none, none, none, some "stable", none, none, false⟩).2.2.2.2.2.2.1
    (by decide) (by decide)

/-! ## C1: activation refuses to overwrite a non-symlink -/

/-- C1: when a non-symlink (plain file or directory) occupies the active
symlink path and the requested version is installed, set_active_version
leaves that node untouched — same content, same type — and emits the
conflict warning rather than overwriting it; the refusal does not fail the
command (the active-path update returns Ok). -/
theorem activate_refuses_nonsymlink (os arch : String) (v : GodotVersion)
    (st : InstallerState) (contents : List InstalledEntry) (n : FsNode)
    (hnode : st.activeNode = some n) (hnotlink : n.is_symlink = false)
    (hinst : st.installedDirs.contains (godot_installation_name v) = true) :
    (set_active_version os arch v st contents).state.activeNode = some n ∧
    (set_active_version os arch v st contents).warnedConflict = true ∧
    (set_active_version os arch v st contents).error ≠ some .notInstalled := by
  have hr1 : update_symlink ("installations/" ++ godot_installation_name v) st.activeNode =
      ⟨some n, true⟩ := by
    simp [update_symlink, hnode, hnotlink]
  unfold set_active_version
  rw [hinst, hr1]
  cases hfind : find_godot_executable contents v os arch <;> simp [hfind]

/-- Witness for activate_refuses_nonsymlink at a concrete state: version
4.2.1 installed, a plain file sitting at the active path. -/
theorem activate_refuses_nonsymlink_witness :
    (set_active_version "linux" "x86_64"
        ⟨4, some 2, some 1, none, some "stable", none, none, false⟩
        ⟨["godot-4.2.1-stable"], some (.file "userdata"), none⟩
        [⟨"Godot_v4.2.1-stable_linux.x86_64", true, true⟩]).state.activeNode =
      some (.file "userdata") ∧
    (set_active_version "linux" "x86_64"
        ⟨4, some 2, some 1, none, some "stable", none, none, false⟩
        ⟨["godot-4.2.1-stable"], some (.file "userdata"), none⟩
        [⟨"Godot_v4.2.1-stable_linux.x86_64", true, true⟩]).warnedConflict = true ∧
    (set_active_version "linux" "x86_64"
        ⟨4, some 2, some 1, none, some "stable", none, none, false⟩
        ⟨["godot-4.2.1-stable"], some (.file "userdata"), none⟩
        [⟨"Godot_v4.2.1-stable_linux.x86_64", true, true⟩]).error ≠ some .notInstalled :=
  activate_refuses_nonsymlink "linux" "x86_64"
    ⟨4, some 2, some 1, none, some "stable", none, none, false⟩
    ⟨["godot-4.2.1-stable"], some (.file "userdata"), none⟩
    [⟨"Godot_v4.2.1-stable_linux.x86_64", true, true⟩]
    (.file "userdata") rfl (by decide) (by decide)

/-! ## C5: get_active_version error behavior -/

/-- C5 counterexample: with a plain (non-symlink) file occupying the active
symlink path, get_active_version does not return "no active version" — the
fs::read_link failure propagates as an error. -/
theorem get_active_version_error_counterexample :
    get_active_version ⟨some (.file "stray"), true⟩ = .error .readLinkFailed ∧
    get_active_version ⟨some (.file "stray"), true⟩ ≠ .ok none := by
  refine ⟨rfl, fun h => ?_⟩
  have h2 : (Except.error ReadError.readLinkFailed : Except ReadError (Option GodotVersion)) =
      .ok none := h
  exact Except.noConfusion h2

/-- C5 (amended): get_active_version returns an error exactly when a
non-symlink file or directory occupies the active path; an absent path or
a dangling symlink gives Ok None; and a present symlink whose target name
fails the naming scheme or the re-parse also gives Ok None, never an error
and never Ok Some. -/
theorem get_active_version_spec (fs : ActiveFs) :
    (get_active_version fs = .error .readLinkFailed ↔
      ((∃ c, fs.node = some (.file c)) ∨ fs.node = some .dir)) ∧
    (activePathExists fs = false → get_active_version fs = .ok none) ∧
    (∀ target, fs.node = some (.symlink target) →
      parseInstalledDirName (lastSegment target) = none →
      get_active_version fs = .ok none) := by
  obtain ⟨node, te⟩ := fs
  cases node with
  | none =>
    refine ⟨by simp [get_active_version, activePathExists],
      by simp [get_active_version, activePathExists], ?_⟩
    intro target htgt
    simp at htgt
  | some fn =>
    cases fn with
    | file c =>
      refine ⟨by simp [get_active_version, activePathExists],
        by simp [get_active_version, activePathExists], ?_⟩
      intro target htgt
      simp at htgt
    | dir =>
      refine ⟨by simp [get_active_version, activePathExists],
        by simp [get_active_version, activePathExists], ?_⟩
      intro target htgt
      simp at htgt
    | symlink t =>
      cases te with
      | false =>
        refine ⟨by simp [get_active_version, activePathExists],
          by simp [get_active_version, activePathExists], ?_⟩
        intro target htgt hparse
        simp [get_active_version, activePathExists]
      | true =>
        refine ⟨⟨?_, ?_⟩, ?_, ?_⟩
        · intro h
          simp only [get_active_version, activePathExists] at h
          cases hp : parseInstalledDirName (lastSegment t) <;> simp [hp] at h
        · rintro (⟨c, hc⟩ | hc) <;> simp at hc
        · intro h
          simp [activePathExists] at h
        · intro target htgt hparse
          simp only [Option.some.injEq, FsNode.symlink.injEq] at htgt
          subst htgt
          simp [get_active_version, activePathExists, hparse]

/-- Witness for get_active_version_spec at concrete states: an absent path
gives Ok None through the second component, and a present symlink whose
target name lacks the godot- marker gives Ok None through the third. -/
theorem get_active_version_spec_witness :
    get_active_version ⟨none, false⟩ = .ok none ∧
    get_active_version ⟨some (.symlink "installations/whatever"), true⟩ = .ok none :=
  ⟨(get_active_version_spec ⟨none, false⟩).2.1 rfl,
   (get_active_version_spec ⟨some (.symlink "installations/whatever"), true⟩).2.2
     "installations/whatever" rfl (by decide)⟩

/-! ## C4: a failing cache write after a successful fetch -/

/-- C4 counterexample: with no usable cache, a successful fetch of one
release, and a failing cache write, godot_releases returns the
save-cache error instead of the sorted fetched releases — the source
wraps the save failure in bail!, which aborts the call. -/
theorem cache_write_failure_counterexample :
    godot_releases false
      ⟨false, none, none,
        some [⟨⟨4, some 2, none, none, some "stable", none, none, false⟩, []⟩],
        false⟩ = .error .saveCacheFailed ∧
    godot_releases false
      ⟨false, none, none,
        some [⟨⟨4, some 2, none, none, some "stable", none, none, false⟩, []⟩],
        false⟩ ≠
      .ok (sortReleases [⟨⟨4, some 2, none, none, some "stable", none, none, false⟩, []⟩]) := by
  refine ⟨rfl, fun h => ?_⟩
  have h2 : (Except.error RegistryError.saveCacheFailed :
      Except RegistryError (List GitHubRelease)) =
      .ok (sortReleases [⟨⟨4, some 2, none, none, some "stable", none, none, false⟩, []⟩]) := h
  exact Except.noConfusion h2

/-- C4 (amended): whenever the fetch path is taken and the network fetch
succeeds, a failure to write the cache file is fatal: godot_releases
returns the save-cache error (bail!) instead of the sorted releases. -/
theorem cache_write_failure_fatal (force : Bool) (env : RegistryEnv)
    (rs : List GitHubRelease) (hfetch : env.fetchResult = some rs)
    (hsave : env.saveOk = false)
    (hpath : (!force && is_cache_valid env) = false) :
    godot_releases force env = .error .saveCacheFailed := by
  unfold godot_releases
  rw [hpath, hfetch, hsave]
  simp

/-- Witness for cache_write_failure_fatal at a concrete environment. -/
theorem cache_write_failure_fatal_witness :
    godot_releases true ⟨true, some 0, some [], some [], false⟩ =
      .error .saveCacheFailed :=
  cache_write_failure_fatal true ⟨true, some 0, some [], some [], false⟩ [] rfl rfl rfl

/-! ## C9: cache freshness -/

/-- C9: with forceRefresh false, a cache younger than seven days is served
(re-sorted, and with no dependence on the network outcome: the environment
is arbitrary in fetchResult); a cache aged seven days or more, and an
absent cache file, both take the network path, whose outcome is exactly
the fetch-sort-save pipeline. -/
theorem cache_freshness (env : RegistryEnv) (l : List GitHubRelease) :
    (env.cacheExists = true → ∀ a, env.cacheAge = some a →
      a < CACHE_VALIDITY_DAYS * 24 * 60 * 60 → env.cacheContents = some l →
      godot_releases false env = .ok (sortReleases l)) ∧
    (∀ a, env.cacheAge = some a → CACHE_VALIDITY_DAYS * 24 * 60 * 60 ≤ a →
      godot_releases false env =
        (match env.fetchResult with
         | none => .error .networkFailed
         | some rs =>
           if env.saveOk then .ok (sortReleases rs) else .error .saveCacheFailed)) ∧
    (env.cacheExists = false →
      godot_releases false env =
        (match env.fetchResult with
         | none => .error .networkFailed
         | some rs =>
           if env.saveOk then .ok (sortReleases rs) else .error .saveCacheFailed)) := by
  refine ⟨?_, ?_, ?_⟩
  · intro hex a hage hlt hcont
    have hvalid : is_cache_valid env = true := by
      unfold is_cache_valid
      rw [hex, hage]
      simpa using hlt
    unfold godot_releases
    rw [hvalid, hcont]
    simp
  · intro a hage hge
    have hvalid : is_cache_valid env = false := by
      unfold is_cache_valid
      rw [hage]
      cases hex : env.cacheExists <;> simp
      omega
    unfold godot_releases
    rw [hvalid]
    simp
  · intro hex
    have hvalid : is_cache_valid env = false := by
      unfold is_cache_valid
      rw [hex]
      simp
    unfold godot_releases
    rw [hvalid]
    simp

/-- Witness for cache_freshness: a six-day-old cache is served without a
network call (the fetch outcome is a network failure, yet the call
succeeds from the cache), and an eight-day-old cache triggers the fetch
path. -/
theorem cache_freshness_witness :
    godot_releases false ⟨true, some (6 * 24 * 60 * 60), some [], none, true⟩ =
      .ok (sortReleases []) ∧
    godot_releases false ⟨true, some (8 * 24 * 60 * 60), some [], none, true⟩ =
      .error .networkFailed :=
  ⟨(cache_freshness ⟨true, some (6 * 24 * 60 * 60), some [], none, true⟩ []).1
      rfl _ rfl (by decide) rfl,
   (cache_freshness ⟨true, some (8 * 24 * 60 * 60), some [], none, true⟩ []).2.1
      _ rfl (by decide)⟩

/-! ## C6 and C10: the synchronizer -/

theorem mem_insertLe {le : α → α → Bool} {a b : α} : ∀ {l : List α},
    a ∈ insertLe le b l ↔ a = b ∨ a ∈ l
  | [] => by simp [insertLe]
  | c :: cs => by
    unfold insertLe
    by_cases h : le b c = true
    · simp [h]
    · simp only [Bool.not_eq_true] at h
      simp only [h, Bool.false_eq_true, if_false, List.mem_cons, mem_insertLe]
      tauto

theorem mem_stableSortBy {le : α → α → Bool} {a : α} : ∀ {l : List α},
    a ∈ stableSortBy le l ↔ a ∈ l
  | [] => Iff.rfl
  | b :: bs => by
    unfold stableSortBy
    rw [mem_insertLe, mem_stableSortBy]
    simp

/-- C6: evaluating the synchronizer model at a second, no-change run: the
source tree holds the single file f (hash 7) and the destination already
holds the identical file.  The run performs zero deletes, but the copy
loop still copies the one file — it runs fs::copy on every filtered source
entry with no membership test, contradicting its own comment ("For every
file in the source list that isn't in the destination list, copy it
over"), so the second run does not perform zero copy operations. -/
theorem sync_second_run_copies_again :
    sync_ops [⟨["f"], 7, false⟩] [⟨["f"], 7, false⟩] none none =
      ([], [⟨["f"], 7, false⟩]) ∧
    ((sync_ops [⟨["f"], 7, false⟩] [⟨["f"], 7, false⟩] none none).2.filter
      (fun e => !e.is_dir)).length = 1 := by
  constructor
  · rfl
  · rfl

/-- C10: the exclude filter is applied to the source listing only.  Any
destination entry under an exclude prefix that passes the include filter
stays in the filtered destination listing, cannot be matched by any
filtered source entry (an equal entry would have been excluded there), and
is therefore deleted. -/
theorem sync_deletes_excluded_dest_entries
    (srcList dstList : List FileEntry) (includes : Option (List (List String)))
    (exs : List (List String)) (e : FileEntry)
    (hmem : e ∈ dstList)
    (hex : exs.any (fun ex => pathStarts e.rel_path ex) = true)
    (hinc : (match includes with
             | none => true
             | some incs => incs.any (fun inc =>
                 pathStarts e.rel_path inc || pathStarts inc e.rel_path)) = true) :
    e ∈ (sync_ops srcList dstList includes (some exs)).1 := by
  unfold sync_ops
  simp only
  rw [List.mem_filter]
  constructor
  · rw [mem_stableSortBy]
    unfold filter_file_list
    rw [List.mem_filter]
    refine ⟨hmem, ?_⟩
    simp only
    rw [hinc]
    simp
  · rw [Bool.not_eq_eq_eq_not, Bool.not_true, List.any_eq_false]
    intro s hs
    rw [mem_stableSortBy] at hs
    unfold filter_file_list at hs
    rw [List.mem_filter] at hs
    by_contra hbeq
    rw [beq_iff_eq] at hbeq
    subst hbeq
    simp [hex] at hs

/-- Witness for sync_deletes_excluded_dest_entries: destination entry
ex/b, excluded by prefix ex with no include filter, lands in the delete
list. -/
theorem sync_deletes_excluded_dest_entries_witness :
    (⟨["ex", "b"], 5, false⟩ : FileEntry) ∈
      (sync_ops [⟨["a"], 1, false⟩] [⟨["a"], 1, false⟩, ⟨["ex", "b"], 5, false⟩]
        none (some [["ex"]])).1 :=
  sync_deletes_excluded_dest_entries [⟨["a"], 1, false⟩]
    [⟨["a"], 1, false⟩, ⟨["ex", "b"], 5, false⟩] none [["ex"]]
    ⟨["ex", "b"], 5, false⟩ (by simp) (by decide) rfl

/-! ## C7: platform-ordered asset selection -/

theorem find?_eq_some_split {p : α → Bool} : ∀ {l : List α} {a : α},
    l.find? p = some a →
    p a = true ∧ ∃ l1 l2, l = l1 ++ a :: l2 ∧ ∀ b ∈ l1, p b = false
  | [], a, h => by simp at h
  | x :: xs, a, h => by
    rw [List.find?_cons] at h
    cases hpx : p x
    · simp only [hpx] at h
      obtain ⟨hp, l1, l2, hsplit, hprior⟩ := find?_eq_some_split h
      refine ⟨hp, x :: l1, l2, by rw [hsplit, List.cons_append], ?_⟩
      intro b hb
      rcases List.mem_cons.mp hb with rfl | hb1
      · exact hpx
      · exact hprior b hb1
    · simp only [hpx] at h
      cases h
      exact ⟨hpx, [], xs, rfl, by simp⟩

theorem findAssetInPatterns_some : ∀ {patterns : List String}
    {assets : List GitHubAsset} {d : Bool} {a : GitHubAsset},
    findAssetInPatterns patterns assets d = some a →
    ∃ ps1 p ps2, patterns = ps1 ++ p :: ps2 ∧
      (∀ q ∈ ps1, ∀ b ∈ assets, asset_filter q d b = false) ∧
      asset_filter p d a = true ∧
      ∃ l1 l2, assets = l1 ++ a :: l2 ∧ ∀ b ∈ l1, asset_filter p d b = false
  | [], _, _, _, h => by simp [findAssetInPatterns] at h
  | p :: ps, assets, d, a, h => by
    unfold findAssetInPatterns at h
    split at h
    · cases h
      obtain ⟨hp, l1, l2, hsplit, hprior⟩ := find?_eq_some_split ‹_›
      exact ⟨[], p, ps, rfl, by simp, hp, l1, l2, hsplit, hprior⟩
    · obtain ⟨ps1, q, ps2, hps, hnone, hq, hrest⟩ := findAssetInPatterns_some h
      refine ⟨p :: ps1, q, ps2, by rw [hps, List.cons_append], ?_, hq, hrest⟩
      intro r hr b hb
      rcases List.mem_cons.mp hr with rfl | hr1
      · exact Bool.not_eq_true _ ▸ (List.find?_eq_none.mp ‹_› b hb : _)
      · exact hnone r hr1 b hb

theorem findAssetInPatterns_none : ∀ {patterns : List String}
    {assets : List GitHubAsset} {d : Bool},
    findAssetInPatterns patterns assets d = none ↔
      ∀ p ∈ patterns, ∀ b ∈ assets, asset_filter p d b = false
  | [], _, _ => by simp [findAssetInPatterns]
  | p :: ps, assets, d => by
    unfold findAssetInPatterns
    constructor
    · intro h
      split at h
      · cases h
      · intro q hq b hb
        rcases List.mem_cons.mp hq with rfl | hq1
        · exact Bool.not_eq_true _ ▸ (List.find?_eq_none.mp ‹_› b hb : _)
        · exact findAssetInPatterns_none.mp h q hq1 b hb
    · intro h
      have hfind : assets.find? (asset_filter p d) = none :=
        List.find?_eq_none.mpr (fun b hb => by simpa using h p (by simp) b hb)
      rw [hfind]
      exact findAssetInPatterns_none.mpr (fun q hq b hb => h q (by simp [hq]) b hb)

/-- C7: find_godot_asset walks the platform pattern list in order; a
returned asset is the first asset (in asset-list order) matching the first
pattern that any asset matches, where matching means: the lower-cased name
contains the pattern, contains "godot", ends with ".zip", and contains
"mono" iff the .NET variant is requested.  When no asset matches any
pattern the call fails — with the NotFound error whenever the asset list
is nonempty (and with the empty-assets error otherwise). -/
theorem find_godot_asset_spec (assets : List GitHubAsset) (d : Bool) (os arch : String) :
    (∀ a, find_godot_asset assets d os arch = .ok a →
      ∃ ps1 p ps2, get_platform_patterns os arch = ps1 ++ p :: ps2 ∧
        (∀ q ∈ ps1, ∀ b ∈ assets, asset_filter q d b = false) ∧
        asset_filter p d a = true ∧
        ∃ l1 l2, assets = l1 ++ a :: l2 ∧ ∀ b ∈ l1, asset_filter p d b = false) ∧
    ((∀ p ∈ get_platform_patterns os arch, ∀ b ∈ assets, asset_filter p d b = false) →
      (∃ err, find_godot_asset assets d os arch = .error err) ∧
      (assets ≠ [] → find_godot_asset assets d os arch = .error .notFound)) := by
  constructor
  · intro a h
    unfold find_godot_asset at h
    split at h
    · cases h
    · split at h
      · cases h
        exact findAssetInPatterns_some ‹_›
      · cases h
  · intro h
    have hnone : findAssetInPatterns (get_platform_patterns os arch) assets d = none :=
      findAssetInPatterns_none.mpr h
    unfold find_godot_asset
    by_cases hemp : assets.isEmpty
    · rw [if_pos hemp]
      exact ⟨⟨.noAssets, rfl⟩, fun hne => absurd (List.isEmpty_iff.mp hemp) hne⟩
    · rw [if_neg hemp, hnone]
      exact ⟨⟨.notFound, rfl⟩, fun _ => rfl⟩

/-- Witness for find_godot_asset_spec, at the asset list of the source's
own unit test on linux/x86_64 without the .NET variant: the selection
succeeds, so the first component applies with its hypothesis discharged by
evaluation, yielding the ordered-first-match decomposition. -/
theorem find_godot_asset_spec_witness :
    ∃ ps1 p ps2,
      get_platform_patterns "linux" "x86_64" = ps1 ++ p :: ps2 ∧
      (∀ q ∈ ps1, ∀ b ∈ [(⟨"Godot_v4.2.1-stable_mono_linux_x86_64.zip", "u3", 1000⟩ : GitHubAsset),
        ⟨"Godot_v4.2.1-stable_linux.x86_64.zip", "u1", 1000⟩],
        asset_filter q false b = false) ∧
      asset_filter p false ⟨"Godot_v4.2.1-stable_linux.x86_64.zip", "u1", 1000⟩ = true ∧
      ∃ l1 l2,
        [(⟨"Godot_v4.2.1-stable_mono_linux_x86_64.zip", "u3", 1000⟩ : GitHubAsset),
          ⟨"Godot_v4.2.1-stable_linux.x86_64.zip", "u1", 1000⟩] =
          l1 ++ ⟨"Godot_v4.2.1-stable_linux.x86_64.zip", "u1", 1000⟩ :: l2 ∧
        ∀ b ∈ l1, asset_filter p false b = false :=
  (find_godot_asset_spec
      [⟨"Godot_v4.2.1-stable_mono_linux_x86_64.zip", "u3", 1000⟩,
        ⟨"Godot_v4.2.1-stable_linux.x86_64.zip", "u1", 1000⟩]
      false "linux" "x86_64").1
    ⟨"Godot_v4.2.1-stable_linux.x86_64.zip", "u1", 1000⟩ (by rfl)

/-! ## C8: when parsing fails -/

theorem matchBodyAux_none_iff (cs : List Char) :
    matchBodyAux cs = none ↔ (∀ c, cs.head? = some c → isDigitCh c = false) := by
  unfold matchBodyAux
  cases cs with
  | nil => simp [spanDigits]
  | cons c rest =>
    cases hd : isDigitCh c with
    | true => simp [spanDigits, List.takeWhile, hd]
    | false => simp [spanDigits, List.takeWhile, hd]

theorem mem_matchDotNum_snd {c : Char} : ∀ (cs : List Char), c ∈ (matchDotNum cs).2 → c ∈ cs
  | [], h => h
  | c0 :: rest, h => by
    simp only [matchDotNum] at h
    by_cases hc : c0 = '.'
    · rw [if_pos hc] at h
      by_cases he : (spanDigits rest).1.isEmpty
      · rw [if_pos he] at h
        exact h
      · rw [if_neg he] at h
        exact List.mem_cons_of_mem _ (List.dropWhile_subset _ h)
    · rw [if_neg hc] at h
      exact h

theorem mem_matchTag_snd {c : Char} : ∀ (cs : List Char), c ∈ (matchTag cs).2.2 → c ∈ cs
  | [], h => h
  | c0 :: rest, h => by
    simp only [matchTag] at h
    by_cases hc : c0 = '-'
    · rw [if_pos hc] at h
      by_cases he : (spanAlpha rest).1.isEmpty
      · rw [if_pos he] at h
        exact h
      · rw [if_neg he] at h
        exact List.mem_cons_of_mem _
          (List.dropWhile_subset _ (List.dropWhile_subset _ h))
    · rw [if_neg hc] at h
      exact h

theorem nl_spanDigits {cs : List Char} (h : '\n' ∈ cs) : '\n' ∈ (spanDigits cs).2 := by
  have hsplit : '\n' ∈ cs.takeWhile isDigitCh ++ cs.dropWhile isDigitCh := by
    rw [List.takeWhile_append_dropWhile]
    exact h
  rcases List.mem_append.mp hsplit with h1 | h2
  · exact absurd (List.mem_takeWhile_imp h1) (by decide)
  · exact h2

theorem nl_spanAlpha {cs : List Char} (h : '\n' ∈ cs) : '\n' ∈ (spanAlpha cs).2 := by
  have hsplit : '\n' ∈ cs.takeWhile isAlphaCh ++ cs.dropWhile isAlphaCh := by
    rw [List.takeWhile_append_dropWhile]
    exact h
  rcases List.mem_append.mp hsplit with h1 | h2
  · exact absurd (List.mem_takeWhile_imp h1) (by decide)
  · exact h2

theorem nl_matchDotNum : ∀ (cs : List Char), '\n' ∈ cs → '\n' ∈ (matchDotNum cs).2
  | [], h => h
  | c0 :: rest, h => by
    simp only [matchDotNum]
    by_cases hc : c0 = '.'
    · rw [if_pos hc]
      by_cases he : (spanDigits rest).1.isEmpty
      · rw [if_pos he]
        exact h
      · rw [if_neg he]
        have hr : '\n' ∈ rest := by
          rcases List.mem_cons.mp h with h0 | h0
          · exact absurd (h0.trans hc) (by decide)
          · exact h0
        exact nl_spanDigits hr
    · rw [if_neg hc]
      exact h

theorem nl_matchTag : ∀ (cs : List Char), '\n' ∈ cs → '\n' ∈ (matchTag cs).2.2
  | [], h => h
  | c0 :: rest, h => by
    simp only [matchTag]
    by_cases hc : c0 = '-'
    · rw [if_pos hc]
      by_cases he : (spanAlpha rest).1.isEmpty
      · rw [if_pos he]
        exact h
      · rw [if_neg he]
        have hr : '\n' ∈ rest := by
          rcases List.mem_cons.mp h with h0 | h0
          · exact absurd (h0.trans hc) (by decide)
          · exact h0
        exact nl_spanDigits (nl_spanAlpha hr)
    · rw [if_neg hc]
      exact h

/-- A newline in the haystack always survives into the trailing capture:
every earlier group consumes only digits, dots, a dash, or letters. -/
theorem nl_matchBodyAux {cs : List Char} {m : RegexCaptures}
    (ha : matchBodyAux cs = some m) (h : '\n' ∈ cs) : '\n' ∈ m.g7 := by
  unfold matchBodyAux at ha
  by_cases hemp : (spanDigits cs).1.isEmpty
  · rw [if_pos hemp] at ha
    cases ha
  · rw [if_neg hemp] at ha
    simp only at ha
    injection ha with ha
    subst ha
    exact nl_matchTag _ (nl_matchDotNum _ (nl_matchDotNum _ (nl_matchDotNum _ (nl_spanDigits h))))

theorem g7_mem_subset {cs : List Char} {m : RegexCaptures}
    (ha : matchBodyAux cs = some m) : ∀ c ∈ m.g7, c ∈ cs := by
  unfold matchBodyAux at ha
  by_cases hemp : (spanDigits cs).1.isEmpty
  · rw [if_pos hemp] at ha
    cases ha
  · rw [if_neg hemp] at ha
    simp only at ha
    injection ha with ha
    subst ha
    intro c hcm
    exact List.dropWhile_subset _
      (mem_matchDotNum_snd _ (mem_matchDotNum_snd _ (mem_matchDotNum_snd _
        (mem_matchTag_snd _ hcm))))

/-- Any newline in the haystack makes the whole regex match fail. -/
theorem matchBody_newline {cs : List Char} (h : '\n' ∈ cs) : matchBody cs = none := by
  unfold matchBody
  cases ha : matchBodyAux cs with
  | none => rfl
  | some m =>
    have hg : m.g7.any (fun c => c = '\n') = true :=
      List.any_eq_true.mpr ⟨'\n', nl_matchBodyAux ha h, by decide⟩
    simp [hg]

theorem matchVersion_newline {cs : List Char} (h : '\n' ∈ cs) : matchVersion cs = none := by
  cases cs with
  | nil => cases h
  | cons c rest =>
    simp only [matchVersion]
    by_cases hv : c = 'v'
    · rw [if_pos hv]
      refine matchBody_newline ?_
      rcases List.mem_cons.mp h with h0 | h0
      · exact absurd (h0.trans hv) (by decide)
      · exact h0
    · rw [if_neg hv]
      exact matchBody_newline h

/-- On newline-free input the newline guard is vacuous, and the regex body
fails to match exactly when the input does not begin with a digit. -/
theorem matchBody_none_iff (cs : List Char) (hnl : '\n' ∉ cs) :
    matchBody cs = none ↔ (∀ c, cs.head? = some c → isDigitCh c = false) := by
  cases ha : matchBodyAux cs with
  | none =>
    have hb : matchBody cs = none := by
      simp [matchBody, ha]
    rw [hb]
    constructor
    · intro _
      exact (matchBodyAux_none_iff cs).mp ha
    · intro _
      rfl
  | some m =>
    have hg : m.g7.any (fun c => c = '\n') = false := by
      cases hgb : m.g7.any (fun c => c = '\n') with
      | false => rfl
      | true =>
        rcases List.any_eq_true.mp hgb with ⟨x, hx, hxe⟩
        have hxn : x = '\n' := by simpa using hxe
        rw [hxn] at hx
        exact absurd (g7_mem_subset ha _ hx) hnl
    have hb : matchBody cs = some m := by
      simp [matchBody, ha, hg]
    rw [hb]
    constructor
    · intro hcontra
      cases hcontra
    · intro hcond
      have hn := (matchBodyAux_none_iff cs).mpr hcond
      rw [hn] at ha
      cases ha

/-- C8 (amended): over ASCII input — where the model's digit class is the
regex digit class and str::parse::<u32> accepts exactly the digits the
regex captured — GodotVersion::new fails exactly when the regex does not
match or some captured numeric component (major, minor, patch, sub-patch,
or tag version) overflows u32.  Any newline makes the match fail, because
the trailing lazy group's dot cannot cross one; on newline-free input the
match fails exactly when the input does not begin with a digit, nor with a
leading v followed by a digit.  In particular a readable major does not
guarantee success. -/
theorem parse_failure_iff (cs : List Char) (d : Bool)
    (_hascii : ∀ c ∈ cs, c.toNat < 128) :
    (godotVersionNewChars cs d = none ↔
      matchVersion cs = none ∨ ∃ m, matchVersion cs = some m ∧ capturesFit m = false) ∧
    ('\n' ∈ cs → godotVersionNewChars cs d = none) ∧
    ('\n' ∉ cs → (matchVersion cs = none ↔ noLeadingDigit cs)) := by
  refine ⟨?_, ?_, ?_⟩
  · cases hm : matchVersion cs with
    | none => simp [godotVersionNewChars, hm]
    | some m =>
      simp only [godotVersionNewChars, hm, Option.some_bind, Option.some.injEq,
        reduceCtorEq, exists_eq_left, false_or]
      cases h1 : parseU32 m.g1 <;>
        cases h2 : parseOptU32 m.g2 <;>
        cases h3 : parseOptU32 m.g3 <;>
        cases h4 : parseOptU32 m.g4 <;>
        cases h6 : parseOptU32 m.g6 <;>
        simp [capturesFit, h1, h2, h3, h4, h6]
  · intro h
    simp [godotVersionNewChars, matchVersion_newline h]
  · intro hnl
    cases cs with
    | nil => simpa [matchVersion, noLeadingDigit] using matchBody_none_iff [] hnl
    | cons c rest =>
      have hnr : '\n' ∉ rest := fun hm => hnl (List.mem_cons_of_mem _ hm)
      by_cases hv : c = 'v'
      · subst hv
        simpa [matchVersion, noLeadingDigit] using matchBody_none_iff rest hnr
      · simp only [matchVersion, if_neg hv]
        rw [matchBody_none_iff (c :: rest) hnl]
        simp [noLeadingDigit, hv]

/-- C8 counterexample: in "1.4294967296" the major component "1" is
readable as an integer, yet parsing fails, because the minor capture
4294967296 overflows u32 (str::parse::<u32> errors). -/
theorem parse_overflow_counterexample :
    godotVersionNew "1.4294967296" false = none ∧
    (matchVersion "1.4294967296".data).map (fun m => m.g1) = some ['1'] ∧
    parseU32 ['1'] = some 1 ∧
    (matchVersion "1.4294967296".data).map (fun m => m.g2) =
      some (some ['4', '2', '9', '4', '9', '6', '7', '2', '9', '6']) ∧
    parseU32 ['4', '2', '9', '4', '9', '6', '7', '2', '9', '6'] = none :=
  ⟨rfl, rfl, rfl, rfl, rfl⟩

/-- Witness for parse_failure_iff: the ASCII, newline-free input "x7" does
not begin with a digit, so the regex does not match and parsing fails. -/
theorem parse_failure_iff_witness :
    godotVersionNewChars "x7".data false = none :=
  (parse_failure_iff "x7".data false (by decide)).1.mpr
    (Or.inl (((parse_failure_iff "x7".data false (by decide)).2.2 (by decide)).mpr
      (by decide)))

/-! ## C3: round-trip through the display string

Helper lemmas about the decimal rendering and the greedy matchers. -/

theorem digitCh_isDigit (n : Nat) : isDigitCh (digitCh n) = true := by
  rcases Nat.lt_or_ge n 9 with h | h
  · interval_cases n <;> rfl
  · obtain ⟨m, rfl⟩ : ∃ m, n = m + 9 := ⟨n - 9, by omega⟩
    rfl

theorem digitCh_toNat (n : Nat) (h : n < 10) : (digitCh n).toNat = 48 + n := by
  interval_cases n <;> rfl

theorem natToDigitsGo_append : ∀ (fuel n : Nat) (acc : List Char),
    natToDigitsGo fuel n acc = natToDigitsGo fuel n [] ++ acc
  | 0, _, _ => rfl
  | fuel + 1, n, acc => by
    unfold natToDigitsGo
    by_cases h : n < 10
    · simp [h]
    · rw [if_neg h, if_neg h, natToDigitsGo_append fuel (n / 10) (digitCh (n % 10) :: acc),
        natToDigitsGo_append fuel (n / 10) [digitCh (n % 10)], List.append_assoc,
        List.singleton_append]

theorem natToDigitsGo_all_digits : ∀ (fuel n : Nat),
    ∀ c ∈ natToDigitsGo fuel n [], isDigitCh c = true
  | 0, n => by simp [natToDigitsGo]
  | fuel + 1, n => by
    unfold natToDigitsGo
    by_cases h : n < 10
    · simp [h, digitCh_isDigit]
    · rw [if_neg h, natToDigitsGo_append]
      intro c hc
      rcases List.mem_append.mp hc with h1 | h2
      · exact natToDigitsGo_all_digits fuel (n / 10) c h1
      · rw [List.mem_singleton.mp h2]
        exact digitCh_isDigit _

theorem natToDigitsGo_ne_nil (fuel n : Nat) : natToDigitsGo (fuel + 1) n [] ≠ [] := by
  unfold natToDigitsGo
  by_cases h : n < 10
  · simp [h]
  · rw [if_neg h, natToDigitsGo_append]
    simp

theorem natToDigits_all_digits (n : Nat) : ∀ c ∈ natToDigits n, isDigitCh c = true :=
  natToDigitsGo_all_digits (n + 1) n

theorem natToDigits_ne_nil (n : Nat) : natToDigits n ≠ [] :=
  natToDigitsGo_ne_nil n n

theorem digitsVal_append_digit (xs : List Char) (c : Char) :
    digitsVal (xs ++ [c]) = digitsVal xs * 10 + (c.toNat - 48) := by
  unfold digitsVal
  rw [List.foldl_append]
  rfl

theorem digitsVal_go : ∀ (fuel n : Nat), n < 10 ^ fuel → 1 ≤ fuel →
    digitsVal (natToDigitsGo fuel n []) = n
  | fuel + 1, n, hlt, _ => by
    unfold natToDigitsGo
    by_cases h : n < 10
    · rw [if_pos h]
      show digitsVal [digitCh n] = n
      unfold digitsVal
      simp [List.foldl, digitCh_toNat n h]
    · rw [if_neg h, natToDigitsGo_append, digitsVal_append_digit]
      have hf : 1 ≤ fuel := by
        rcases Nat.eq_zero_or_pos fuel with rfl | hp
        · simp at hlt; omega
        · exact hp
      have hdiv : n / 10 < 10 ^ fuel := by
        rw [Nat.div_lt_iff_lt_mul (by omega)]
        calc n < 10 ^ (fuel + 1) := hlt
        _ = 10 ^ fuel * 10 := by ring
      rw [digitsVal_go fuel (n / 10) hdiv hf, digitCh_toNat (n % 10) (Nat.mod_lt _ (by omega))]
      omega

theorem digitsVal_natToDigits (n : Nat) : digitsVal (natToDigits n) = n :=
  digitsVal_go (n + 1) n
    (lt_of_lt_of_le (Nat.lt_pow_self (by omega) n)
      (Nat.pow_le_pow_right (by omega) (by omega)))
    (by omega)

theorem parseU32_natToDigits (n : Nat) (h : n ≤ u32Max) :
    parseU32 (natToDigits n) = some n := by
  unfold parseU32
  rw [digitsVal_natToDigits]
  simp [h]

theorem digit_not_alpha {c : Char} (h : isDigitCh c = true) : isAlphaCh c = false := by
  simp only [isDigitCh, Bool.and_eq_true, decide_eq_true_eq] at h
  simp only [isAlphaCh, Bool.or_eq_false_iff, Bool.and_eq_false_iff,
    decide_eq_false_iff_not]
  omega

theorem digit_ne_v {c : Char} (h : isDigitCh c = true) : c ≠ 'v' := by
  intro hv
  subst hv
  simp [isDigitCh] at h

theorem digit_ne_dot {c : Char} (h : isDigitCh c = true) : c ≠ '.' := by
  intro hv
  subst hv
  simp [isDigitCh] at h

theorem takeWhile_all_append {p : Char → Bool} (ds rest : List Char)
    (h1 : ∀ c ∈ ds, p c = true) (h2 : ∀ c, rest.head? = some c → p c = false) :
    (ds ++ rest).takeWhile p = ds ∧ (ds ++ rest).dropWhile p = rest := by
  induction ds with
  | nil =>
    cases rest with
    | nil => exact ⟨rfl, rfl⟩
    | cons c r =>
      rw [List.nil_append, List.takeWhile_cons, List.dropWhile_cons, h2 c rfl]
      exact ⟨rfl, rfl⟩
  | cons d ds ih =>
    have hd : p d = true := h1 d (List.mem_cons_self d ds)
    have ihh := ih (fun c hc => h1 c (List.mem_cons_of_mem d hc))
    constructor
    · rw [List.cons_append, List.takeWhile_cons, hd, if_pos rfl, ihh.1]
    · rw [List.cons_append, List.dropWhile_cons, hd, if_pos rfl]
      exact ihh.2

theorem spanDigits_append {ds rest : List Char} (h1 : ∀ c ∈ ds, isDigitCh c = true)
    (h2 : ∀ c, rest.head? = some c → isDigitCh c = false) :
    spanDigits (ds ++ rest) = (ds, rest) := by
  unfold spanDigits
  have h := takeWhile_all_append ds rest h1 h2
  rw [h.1, h.2]

theorem spanAlpha_append {ds rest : List Char} (h1 : ∀ c ∈ ds, isAlphaCh c = true)
    (h2 : ∀ c, rest.head? = some c → isAlphaCh c = false) :
    spanAlpha (ds ++ rest) = (ds, rest) := by
  unfold spanAlpha
  have h := takeWhile_all_append ds rest h1 h2
  rw [h.1, h.2]

theorem matchDotNum_not_dot : ∀ (cs : List Char), (∀ c, cs.head? = some c → c ≠ '.') →
    matchDotNum cs = (none, cs)
  | [], _ => rfl
  | c :: rest, h => by
    simp only [matchDotNum]
    rw [if_neg (h c rfl)]

theorem matchDotNum_dot_digits (ds rest : List Char) (hds : ∀ c ∈ ds, isDigitCh c = true)
    (hne : ds ≠ []) (hrest : ∀ c, rest.head? = some c → isDigitCh c = false) :
    matchDotNum ('.' :: (ds ++ rest)) = (some ds, rest) := by
  simp only [matchDotNum, if_pos rfl]
  simp only [spanDigits_append hds hrest]
  simp [hne]

theorem matchDotNum_fst_none : ∀ (cs : List Char), (matchDotNum cs).1 = none →
    (matchDotNum cs).2 = cs
  | [], _ => rfl
  | c :: rest, h => by
    simp only [matchDotNum] at h ⊢
    by_cases hc : c = '.'
    · rw [if_pos hc] at h ⊢
      by_cases he : (spanDigits rest).1.isEmpty
      · rw [if_pos he] at h ⊢
      · rw [if_neg he] at h
        simp at h
    · rw [if_neg hc]

theorem matchTag_not_dash : ∀ (cs : List Char), (∀ c, cs.head? = some c → c ≠ '-') →
    matchTag cs = (none, none, cs)
  | [], _ => rfl
  | c :: rest, h => by
    simp only [matchTag]
    rw [if_neg (h c rfl)]

theorem matchTag_dash (ls ds : List Char) (hls : ∀ c ∈ ls, isAlphaCh c = true)
    (hlne : ls ≠ []) (hds : ∀ c ∈ ds, isDigitCh c = true) :
    matchTag ('-' :: (ls ++ ds)) =
      (some ls, if ds.isEmpty then none else some ds, []) := by
  simp only [matchTag, if_pos rfl]
  have hsp : spanAlpha (ls ++ ds) = (ls, ds) :=
    spanAlpha_append hls (fun c hc => by
      cases ds with
      | nil => cases hc
      | cons d r =>
        cases hc
        exact digit_not_alpha (hds c (by simp)))
  simp only [hsp]
  have hsd : spanDigits (ds ++ ([] : List Char)) = (ds, []) :=
    spanDigits_append hds (fun c hc => by cases hc)
  rw [List.append_nil] at hsd
  simp only [hsd]
  simp [hlne]

theorem matchTag_some_alpha : ∀ {cs ls : List Char} {g6 : Option (List Char)} {r : List Char},
    matchTag cs = (some ls, g6, r) → ls ≠ [] ∧ ∀ c ∈ ls, isAlphaCh c = true
  | [], ls, g6, r, h => by cases h
  | c :: rest, ls, g6, r, h => by
    simp only [matchTag] at h
    by_cases hc : c = '-'
    · rw [if_pos hc] at h
      by_cases he : (spanAlpha rest).1.isEmpty
      · rw [if_pos he] at h
        cases h
      · rw [if_neg he] at h
        have hls : ls = (spanAlpha rest).1 := by
          cases h
          rfl
        subst hls
        refine ⟨by simpa using he, ?_⟩
        intro x hx
        exact List.mem_takeWhile_imp hx
    · rw [if_neg hc] at h
      cases h


theorem matchTag_fst_alpha (cs : List Char) {ls : List Char}
    (h : (matchTag cs).1 = some ls) : ls ≠ [] ∧ ∀ c ∈ ls, isAlphaCh c = true :=
  matchTag_some_alpha (show matchTag cs =
    (some ls, (matchTag cs).2.1, (matchTag cs).2.2) by rw [← h])

theorem matchBodyAux_caps {cs : List Char} {m : RegexCaptures}
    (h : matchBodyAux cs = some m) :
    (m.g2 = none → m.g3 = none) ∧ (m.g3 = none → m.g4 = none) ∧
    (∀ ls, m.g5 = some ls → ls ≠ [] ∧ ∀ c ∈ ls, isAlphaCh c = true) := by
  unfold matchBodyAux at h
  by_cases hemp : (spanDigits cs).1.isEmpty
  · rw [if_pos hemp] at h
    cases h
  · rw [if_neg hemp] at h
    simp only at h
    injection h with h
    subst h
    refine ⟨?_, ?_, ?_⟩
    · intro h2
      show (matchDotNum ((matchDotNum (spanDigits cs).2).2)).1 = none
      rw [matchDotNum_fst_none _ h2]
      exact h2
    · intro h3
      show (matchDotNum ((matchDotNum ((matchDotNum (spanDigits cs).2).2)).2)).1 = none
      rw [matchDotNum_fst_none _ h3]
      exact h3
    · intro ls hls
      exact matchTag_fst_alpha _ hls

theorem matchBody_caps {cs : List Char} {m : RegexCaptures} (h : matchBody cs = some m) :
    (m.g2 = none → m.g3 = none) ∧ (m.g3 = none → m.g4 = none) ∧
    (∀ ls, m.g5 = some ls → ls ≠ [] ∧ ∀ c ∈ ls, isAlphaCh c = true) := by
  unfold matchBody at h
  split at h
  · cases h
  next m0 ha =>
  cases hg : m0.g7.any (fun c => c = '\n') with
  | true =>
    rw [if_pos hg] at h
    cases h
  | false =>
    rw [if_neg (by simp [hg])] at h
    injection h with h
    subst h
    exact matchBodyAux_caps ha

theorem matchVersion_caps {cs : List Char} {m : RegexCaptures}
    (h : matchVersion cs = some m) :
    (m.g2 = none → m.g3 = none) ∧ (m.g3 = none → m.g4 = none) ∧
    (∀ ls, m.g5 = some ls → ls ≠ [] ∧ ∀ c ∈ ls, isAlphaCh c = true) := by
  cases cs with
  | nil => exact matchBody_caps (by simpa [matchVersion] using h)
  | cons c rest =>
    simp only [matchVersion] at h
    by_cases hv : c = 'v'
    · rw [if_pos hv] at h
      exact matchBody_caps h
    · rw [if_neg hv] at h
      exact matchBody_caps h

theorem parseU32_le {ds : List Char} {k : Nat} (h : parseU32 ds = some k) : k ≤ u32Max := by
  unfold parseU32 at h
  by_cases hb : digitsVal ds ≤ u32Max
  · rw [if_pos hb] at h
    cases h
    exact hb
  · rw [if_neg hb] at h
    cases h

theorem parseOptU32_le {o : Option (List Char)} {oo : Option Nat}
    (h : parseOptU32 o = some oo) : ∀ k, oo = some k → k ≤ u32Max := by
  cases o with
  | none =>
    cases h
    intro k hk
    cases hk
  | some ds =>
    simp only [parseOptU32, Option.map_eq_some'] at h
    obtain ⟨k0, hk0, rfl⟩ := h
    intro k hk
    cases hk
    exact parseU32_le hk0

theorem parseOptU32_isSome {o : Option (List Char)} {oo : Option Nat}
    (h : parseOptU32 o = some oo) : oo.isSome = o.isSome := by
  cases o with
  | none =>
    cases h
    rfl
  | some ds =>
    simp only [parseOptU32, Option.map_eq_some'] at h
    obtain ⟨k0, _, rfl⟩ := h
    rfl

/-- Every successful parse yields a canonical version: this is the shape
invariant the round-trip rests on. -/
theorem parsed_canonical {cs : List Char} {d : Bool} {v : GodotVersion}
    (h : godotVersionNewChars cs d = some v) : CanonicalVersion v := by
  unfold godotVersionNewChars at h
  split at h
  · cases h
  next m hm =>
  split at h
  · cases h
  next major hmajor =>
  split at h
  · cases h
  next minor_opt hminor =>
  split at h
  · cases h
  next patch_opt hpatch =>
  split at h
  · cases h
  next sub_patch_opt hsub =>
  split at h
  · cases h
  next tag_version htag =>
  simp only [Option.some.injEq] at h
  obtain ⟨mcaps2, mcaps3, mcaps5⟩ := matchVersion_caps hm
  subst h
  refine ⟨?_, ?_, ?_, ?_, ?_, ?_, ?_, ?_, ?_, ?_, ?_⟩
  · exact parseU32_le hmajor
  · intro k hk
    rw [Option.filter_eq_some] at hk
    exact parseOptU32_le hminor k hk.1
  · intro k hk
    rw [Option.filter_eq_some] at hk
    exact parseOptU32_le hpatch k hk.1
  · intro k hk
    rw [Option.filter_eq_some] at hk
    exact parseOptU32_le hsub k hk.1
  · intro k hk
    exact parseOptU32_le htag k hk
  · intro k hk
    rw [Option.filter_eq_some] at hk
    exact hk.2
  · intro k hk
    rw [Option.filter_eq_some] at hk
    exact hk.2
  · intro k hk
    rw [Option.filter_eq_some] at hk
    have h2 := hk.2
    simpa using h2
  · intro hps
    have hpatch_opt : patch_opt.isSome = true := by
      rcases Option.isSome_iff_exists.mp hps with ⟨p, hp⟩
      rw [Option.filter_eq_some] at hp
      rw [hp.1]
      rfl
    have hg3 : m.g3.isSome = true := by
      rw [← parseOptU32_isSome hpatch]
      exact hpatch_opt
    have hg2 : m.g2.isSome = true := by
      cases hg2n : m.g2 with
      | some _ => rfl
      | none =>
        rw [mcaps2 hg2n] at hg3
        cases hg3
    have hmo : minor_opt.isSome = true := by
      rw [parseOptU32_isSome hminor]
      exact hg2
    rcases Option.isSome_iff_exists.mp hmo with ⟨k, hk⟩
    subst hk
    simp [Option.filter_some, hps]
  · intro hss
    have hsub_opt : sub_patch_opt.isSome = true := by
      rcases Option.isSome_iff_exists.mp hss with ⟨p, hp⟩
      rw [Option.filter_eq_some] at hp
      rw [hp.1]
      rfl
    have hg4 : m.g4.isSome = true := by
      rw [← parseOptU32_isSome hsub]
      exact hsub_opt
    have hg3 : m.g3.isSome = true := by
      cases hg3n : m.g3 with
      | some _ => rfl
      | none =>
        rw [mcaps3 hg3n] at hg4
        cases hg4
    have hpo : patch_opt.isSome = true := by
      rw [parseOptU32_isSome hpatch]
      exact hg3
    rcases Option.isSome_iff_exists.mp hpo with ⟨k, hk⟩
    subst hk
    simp [Option.filter_some, hss]
  · cases hg5 : m.g5 with
    | none => exact ⟨"stable", by simp [hg5], by decide, by decide⟩
    | some ls =>
      obtain ⟨hne, halpha⟩ := mcaps5 ls hg5
      exact ⟨⟨ls⟩, by simp [hg5], hne, halpha⟩

theorem matchBodyAux_digits_start (ds rest : List Char) (hds : ∀ c ∈ ds, isDigitCh c = true)
    (hne : ds ≠ []) (hrest : ∀ c, rest.head? = some c → isDigitCh c = false) :
    matchBodyAux (ds ++ rest) = some
      ⟨ds, (matchDotNum rest).1,
        (matchDotNum (matchDotNum rest).2).1,
        (matchDotNum (matchDotNum (matchDotNum rest).2).2).1,
        (matchTag (matchDotNum (matchDotNum (matchDotNum rest).2).2).2).1,
        (matchTag (matchDotNum (matchDotNum (matchDotNum rest).2).2).2).2.1,
        (matchTag (matchDotNum (matchDotNum (matchDotNum rest).2).2).2).2.2⟩ := by
  simp only [matchBodyAux, spanDigits_append hds hrest]
  simp [hne]

theorem matchBody_digits_start (ds rest : List Char) (hds : ∀ c ∈ ds, isDigitCh c = true)
    (hne : ds ≠ []) (hrest : ∀ c, rest.head? = some c → isDigitCh c = false) :
    matchBody (ds ++ rest) =
      if ((matchTag (matchDotNum (matchDotNum (matchDotNum rest).2).2).2).2.2).any
          (fun c => c = '\n') then none
      else some
        ⟨ds, (matchDotNum rest).1,
          (matchDotNum (matchDotNum rest).2).1,
          (matchDotNum (matchDotNum (matchDotNum rest).2).2).1,
          (matchTag (matchDotNum (matchDotNum (matchDotNum rest).2).2).2).1,
          (matchTag (matchDotNum (matchDotNum (matchDotNum rest).2).2).2).2.1,
          (matchTag (matchDotNum (matchDotNum (matchDotNum rest).2).2).2).2.2⟩ := by
  simp only [matchBody, matchBodyAux_digits_start ds rest hds hne hrest]

theorem matchVersion_digits_start (ds rest : List Char)
    (hds : ∀ c ∈ ds, isDigitCh c = true) (hne : ds ≠ []) :
    matchVersion (ds ++ rest) = matchBody (ds ++ rest) := by
  obtain ⟨c, tl, rfl⟩ := List.exists_cons_of_ne_nil hne
  have hcd : isDigitCh c = true := hds c (by simp)
  rw [List.cons_append]
  simp only [matchVersion]
  rw [if_neg (digit_ne_v hcd), ← List.cons_append]

theorem tag_tail (t : String) (htne : t.data ≠ [])
    (htalpha : ∀ c ∈ t.data, isAlphaCh c = true) (tvo : Option Nat) :
    matchTag ('-' :: (t.data ++ (match tvo with
      | none => ([] : List Char)
      | some n => natToDigits n))) =
      (some t.data, tvo.map natToDigits, []) := by
  cases tvo with
  | none =>
    have h := matchTag_dash t.data [] htalpha htne (by simp)
    simpa using h
  | some n =>
    have h := matchTag_dash t.data (natToDigits n) htalpha htne (natToDigits_all_digits n)
    rw [h]
    simp [List.isEmpty_iff, natToDigits_ne_nil n]

theorem head_dot_not_digit (X : List Char) :
    ∀ c, (('.' :: X).head?) = some c → isDigitCh c = false := by
  intro c hc
  simp only [List.head?_cons, Option.some.injEq] at hc
  subst hc
  decide

theorem head_dash_not_digit (X : List Char) :
    ∀ c, (('-' :: X).head?) = some c → isDigitCh c = false := by
  intro c hc
  simp only [List.head?_cons, Option.some.injEq] at hc
  subst hc
  decide

theorem head_dash_not_dot (X : List Char) :
    ∀ c, (('-' :: X).head?) = some c → c ≠ '.' := by
  intro c hc
  simp only [List.head?_cons, Option.some.injEq] at hc
  subst hc
  decide

/-- Re-matching the display string of a canonical version with empty extra:
the regex recovers exactly the rendered capture groups. -/
theorem matchVersion_versionChars (v : GodotVersion) (hc : CanonicalVersion v)
    (t : String) (ht : v.release_tag = some t) (htne : t.data ≠ [])
    (htalpha : ∀ c ∈ t.data, isAlphaCh c = true) (hextra : v.extra = none) :
    matchVersion (versionChars v) = some
      ⟨natToDigits v.major, some (natToDigits (v.minor.getD 0)),
       v.patch.map natToDigits, v.sub_patch.map natToDigits,
       some t.data, v.tag_version.map natToDigits, []⟩ := by
  have htagt := tag_tail t htne htalpha v.tag_version
  cases hp : v.patch with
  | none =>
    have hs : v.sub_patch = none := by
      cases hsx : v.sub_patch with
      | none => rfl
      | some sp =>
        have h2 := hc.sub_needs_patch (by rw [hsx]; rfl)
        rw [hp] at h2
        cases h2
    have hshape : versionChars v =
        natToDigits v.major ++ ('.' :: (natToDigits (v.minor.getD 0) ++
          ('-' :: (t.data ++ (match v.tag_version with
            | none => ([] : List Char)
            | some n => natToDigits n))))) := by
      simp [versionChars, versionCharsNoTag, ht, hextra, hp]
    rw [hshape,
      matchVersion_digits_start _ _ (natToDigits_all_digits _) (natToDigits_ne_nil _),
      matchBody_digits_start _ _ (natToDigits_all_digits _) (natToDigits_ne_nil _)
        (head_dot_not_digit _)]
    have hm2 := matchDotNum_dot_digits (natToDigits (v.minor.getD 0))
      ('-' :: (t.data ++ (match v.tag_version with
        | none => ([] : List Char)
        | some n => natToDigits n)))
      (natToDigits_all_digits _) (natToDigits_ne_nil _) (head_dash_not_digit _)
    have hnd := matchDotNum_not_dot ('-' :: (t.data ++ (match v.tag_version with
        | none => ([] : List Char)
        | some n => natToDigits n))) (head_dash_not_dot _)
    simp [hm2, hnd, htagt, hp, hs, Option.map_none']
  | some p =>
    cases hs : v.sub_patch with
    | none =>
      have hshape : versionChars v =
          natToDigits v.major ++ ('.' :: (natToDigits (v.minor.getD 0) ++
            ('.' :: (natToDigits p ++
              ('-' :: (t.data ++ (match v.tag_version with
                | none => ([] : List Char)
                | some n => natToDigits n))))))) := by
        simp [versionChars, versionCharsNoTag, ht, hextra, hp, hs]
      rw [hshape,
        matchVersion_digits_start _ _ (natToDigits_all_digits _) (natToDigits_ne_nil _),
        matchBody_digits_start _ _ (natToDigits_all_digits _) (natToDigits_ne_nil _)
          (head_dot_not_digit _)]
      have hm2 := matchDotNum_dot_digits (natToDigits (v.minor.getD 0))
        ('.' :: (natToDigits p ++ ('-' :: (t.data ++ (match v.tag_version with
          | none => ([] : List Char)
          | some n => natToDigits n)))))
        (natToDigits_all_digits _) (natToDigits_ne_nil _) (head_dot_not_digit _)
      have hm3 := matchDotNum_dot_digits (natToDigits p)
        ('-' :: (t.data ++ (match v.tag_version with
          | none => ([] : List Char)
          | some n => natToDigits n)))
        (natToDigits_all_digits _) (natToDigits_ne_nil _) (head_dash_not_digit _)
      have hnd := matchDotNum_not_dot ('-' :: (t.data ++ (match v.tag_version with
          | none => ([] : List Char)
          | some n => natToDigits n))) (head_dash_not_dot _)
      simp [hm2, hm3, hnd, htagt, hp, hs, Option.map_none', Option.map_some']
    | some sp =>
      have hshape : versionChars v =
          natToDigits v.major ++ ('.' :: (natToDigits (v.minor.getD 0) ++
            ('.' :: (natToDigits p ++
              ('.' :: (natToDigits sp ++
                ('-' :: (t.data ++ (match v.tag_version with
                  | none => ([] : List Char)
                  | some n => natToDigits n))))))))) := by
        simp [versionChars, versionCharsNoTag, ht, hextra, hp, hs]
      rw [hshape,
        matchVersion_digits_start _ _ (natToDigits_all_digits _) (natToDigits_ne_nil _),
        matchBody_digits_start _ _ (natToDigits_all_digits _) (natToDigits_ne_nil _)
          (head_dot_not_digit _)]
      have hm2 := matchDotNum_dot_digits (natToDigits (v.minor.getD 0))
        ('.' :: (natToDigits p ++ ('.' :: (natToDigits sp ++
          ('-' :: (t.data ++ (match v.tag_version with
            | none => ([] : List Char)
            | some n => natToDigits n)))))))
        (natToDigits_all_digits _) (natToDigits_ne_nil _) (head_dot_not_digit _)
      have hm3 := matchDotNum_dot_digits (natToDigits p)
        ('.' :: (natToDigits sp ++ ('-' :: (t.data ++ (match v.tag_version with
          | none => ([] : List Char)
          | some n => natToDigits n)))))
        (natToDigits_all_digits _) (natToDigits_ne_nil _) (head_dot_not_digit _)
      have hm4 := matchDotNum_dot_digits (natToDigits sp)
        ('-' :: (t.data ++ (match v.tag_version with
          | none => ([] : List Char)
          | some n => natToDigits n)))
        (natToDigits_all_digits _) (natToDigits_ne_nil _) (head_dash_not_digit _)
      simp [hm2, hm3, hm4, htagt, hp, hs, Option.map_some']

theorem parseOptU32_map (o : Option Nat) (hb : ∀ k, o = some k → k ≤ u32Max) :
    parseOptU32 (o.map natToDigits) = some o := by
  cases o with
  | none => rfl
  | some k => simp [parseOptU32, parseU32_natToDigits k (hb k rfl)]

/-- Re-parsing the display string of a canonical version with empty extra
returns the version itself, field for field. -/
theorem roundtrip_parse {v : GodotVersion} (hc : CanonicalVersion v)
    (hextra : v.extra = none) :
    godotVersionNewChars (versionChars v) v.is_dotnet = some v := by
  obtain ⟨t, ht, htne, htalpha⟩ := hc.tag_alpha
  have hm := matchVersion_versionChars v hc t ht htne htalpha hextra
  have hm0 : v.minor.getD 0 ≤ u32Max := by
    cases hmm : v.minor with
    | none => decide
    | some m => exact hc.minor_le m hmm
  have hpm : parseOptU32 ((v.minor.getD 0 : Nat) |> some |>.map natToDigits) =
      some (some (v.minor.getD 0)) := parseOptU32_map (some (v.minor.getD 0)) (by
    intro k hk
    cases hk
    exact hm0)
  have hsubF : v.sub_patch.filter (fun x => decide (0 < x)) = v.sub_patch := by
    cases hsx : v.sub_patch with
    | none => rfl
    | some sp => simp [Option.filter_some, hc.sub_pos sp hsx]
  have hpatchF : v.patch.filter (fun x => v.sub_patch.isSome || decide (0 < x)) = v.patch := by
    cases hpx : v.patch with
    | none => rfl
    | some p => simp [Option.filter_some, hc.patch_canon p hpx]
  have hminorF : (some (v.minor.getD 0)).filter
      (fun x => v.patch.isSome || decide (0 < x)) = v.minor := by
    cases hmm : v.minor with
    | some m =>
      simp only [Option.getD_some]
      have hcond := hc.minor_canon m hmm
      simp [Option.filter_some, hcond]
    | none =>
      have hpn : v.patch = none := by
        cases hpx : v.patch with
        | none => rfl
        | some p =>
          have h2 := hc.patch_needs_minor (by rw [hpx]; rfl)
          rw [hmm] at h2
          cases h2
      simp [Option.filter_some, hpn]
  unfold godotVersionNewChars
  rw [hm]
  have hpm2 : parseOptU32 (some (natToDigits (v.minor.getD 0))) =
      some (some (v.minor.getD 0)) := by simpa using hpm
  simp only [parseU32_natToDigits v.major hc.major_le, hpm2,
    parseOptU32_map v.patch hc.patch_le,
    parseOptU32_map v.sub_patch hc.sub_le,
    parseOptU32_map v.tag_version hc.tagv_le,
    List.isEmpty_nil, if_true, hsubF, hpatchF, hminorF]
  rw [show ({ data := t.data } : String) = t from rfl, ← ht, ← hextra]

/-- C3 counterexample: "4.2xyz" parses with extra "xyz"; its display string
is "4.2-stablexyz", which re-parses with release tag "stablexyz" — the tag
absorbs the extra text — and the re-parsed identifier does not compare
equal to the original (tag rank 100 vs 0). -/
theorem roundtrip_counterexample :
    godotVersionNew "4.2xyz" false =
      some ⟨4, some 2, none, none, some "stable", none, some "xyz", false⟩ ∧
    asGodotVersionStr ⟨4, some 2, none, none, some "stable", none, some "xyz", false⟩ =
      "4.2-stablexyz" ∧
    godotVersionNew "4.2-stablexyz" false =
      some ⟨4, some 2, none, none, some "stablexyz", none, none, false⟩ ∧
    godotCmp ⟨4, some 2, none, none, some "stable", none, some "xyz", false⟩
      ⟨4, some 2, none, none, some "stablexyz", none, none, false⟩ ≠ .eq ∧
    godotCmp ⟨4, some 2, none, none, some "stable", none, some "xyz", false⟩
      ⟨4, some 2, none, none, some "stablexyz", none, none, false⟩ = .gt := by
  refine ⟨rfl, ?_, rfl, by decide, by decide⟩
  rfl

/-- C3 (amended): for every identifier produced by a successful parse whose
extra field is empty, re-parsing its display string with the same variant
flag returns the identical identifier, hence one that compares equal under
the model's ordering.  (The counterexample shows the claim fails for some
identifiers with a non-empty extra field.) -/
theorem roundtrip_compare_equal (s : String) (d : Bool) (v : GodotVersion)
    (h : godotVersionNew s d = some v) (hextra : v.extra = none) :
    godotVersionNew (asGodotVersionStr v) v.is_dotnet = some v ∧
    godotCmp v v = .eq := by
  have hc : CanonicalVersion v := parsed_canonical h
  exact ⟨roundtrip_parse hc hextra, Batteries.OrientedCmp.cmp_refl⟩

/-- Witness for roundtrip_compare_equal at the parse of "4.3.0-beta2". -/
theorem roundtrip_compare_equal_witness :
    godotVersionNew
      (asGodotVersionStr ⟨4, some 3, none, none, some "beta", some 2, none, false⟩)
      false =
      some ⟨4, some 3, none, none, some "beta", some 2, none, false⟩ ∧
    godotCmp ⟨4, some 3, none, none, some "beta", some 2, none, false⟩
      ⟨4, some 3, none, none, some "beta", some 2, none, false⟩ = .eq :=
  roundtrip_compare_equal "4.3.0-beta2" false
    ⟨4, some 3, none, none, some "beta", some 2, none, false⟩ rfl rfl
